import Mathlib

/-!
Verification of the solify dependency-analysis engine.

Shallow embedding of the analysis pipeline:
* the account registry builder (`programs/solify/src/analyzer/dependency_analyzer.rs`),
* the instruction topological sort and account orderer (`analyzer/src/account_order.rs`),
* the PDA detector (`analyzer/src/pda_detector.rs`),
* the setup generator (`analyzer_onchain/src/setup_generator.rs`),
* the test case generator (`programs/solify/src/analyzer/test_case_generator.rs`),
* the two top-level orchestrators (`analyzer_onchain/src/lib.rs` and
  `programs/solify/src/analyzer/mod.rs`).

Rust `HashMap`/`HashSet` iteration orders are unspecified; wherever the source
iterates over such a container, the embedding takes the iteration order as an
explicit parameter, so that theorems quantify over all orders the standard
library might produce.
-/

namespace Solify

/-! ## String helpers (Rust std semantics, ASCII fragment) -/

/-- Index of the first occurrence of `pat` in `l` (Rust `str::find`). -/
def firstInfixIdx (l pat : List Char) : Option Nat :=
  if pat.isPrefixOf l then some 0
  else
    match l with
    | [] => none
    | _ :: xs => (firstInfixIdx xs pat).map (· + 1)

/-- Rust `str::contains(pattern)`: substring containment. -/
def strContains (s pat : String) : Bool := (firstInfixIdx s.data pat.data).isSome

/-- Rust `str::to_lowercase()`, restricted to its ASCII behaviour
(all identifiers analysed by the pipeline are ASCII). -/
def lowercase (s : String) : String := ⟨s.data.map Char.toLower⟩

/-- Rust `str::is_empty()`. -/
def strIsEmpty (s : String) : Bool := s.data.isEmpty

/-- ASCII whitespace test, the fragment of Rust `char::is_whitespace` relevant here. -/
def isWsChar (c : Char) : Bool := c = ' ' || c = '\t' || c = '\n' || c = '\r'

/-- Rust `str::split_whitespace().next()`. -/
def firstWsToken (l : List Char) : Option (List Char) :=
  let l' := l.dropWhile isWsChar
  if l'.isEmpty then none else some (l'.takeWhile (fun c => !isWsChar c))

/-- Rust `str::trim_matches('"')`. -/
def trimQuotes (l : List Char) : List Char :=
  ((l.dropWhile (· = '"')).reverse.dropWhile (· = '"')).reverse

/-! ## IDL input model (`common/src/types.rs`, mirrored in
`programs/solify/src/types/idl_data.rs`).  Fields never read by the
analysis stages (discriminators, error tables, events, …) are omitted. -/

structure IdlSeed where
  kind : String
  path : String
  value : String
deriving Repr, DecidableEq

structure IdlPda where
  seeds : List IdlSeed
deriving Repr, DecidableEq

structure IdlAccountItem where
  name : String
  is_mut : Bool
  is_signer : Bool
  is_optional : Bool
  docs : List String
  pda : Option IdlPda
deriving Repr, DecidableEq

structure IdlField where
  name : String
  field_type : String
deriving Repr, DecidableEq

structure IdlInstruction where
  name : String
  accounts : List IdlAccountItem
  args : List IdlField
  docs : List String
deriving Repr, DecidableEq

structure IdlData where
  name : String
  version : String
  instructions : List IdlInstruction
deriving Repr, DecidableEq

/-! ## Error model (`common/src/errors.rs`).  The `IoError` variant wraps a
`std::io::Error` and is unreachable from the analysis stages, so it is left
out.  The on-chain program uses a payload-free mirror of the same kinds
(`programs/solify/src/error.rs`); the embedding uses the payload-carrying
common type throughout. -/

inductive SolifyError where
  | IdlNotFound (s : String)
  | IdlParseFailed (s : String)
  | InvalidInstructionOrder (s : String)
  | CircularDependency
  | AccountNotFound (s : String)
  | InstructionNotFound (s : String)
  | SerializationError (s : String)
  | RpcError (s : String)
  | TransactionError (s : String)
  | TemplateError (s : String)
  | Unknown (s : String)
  | DependencyAnalysisFailed (s : String)
  | InvalidSetupRequirement
  | InvalidPdaInitialization
  | InvalidTestCase
deriving Repr, DecidableEq

/-- The `thiserror` `Display` strings from `common/src/errors.rs`
(Rust `e.to_string()`). -/
def SolifyError.display : SolifyError → String
  | .IdlNotFound s => "IDL file not found: " ++ s
  | .IdlParseFailed s => "Failed to parse IDL: " ++ s
  | .InvalidInstructionOrder s => "Invalid instruction order: " ++ s
  | .CircularDependency => "Circular dependency detected"
  | .AccountNotFound s => "Account not found: " ++ s
  | .InstructionNotFound s => "Instruction not found: " ++ s
  | .SerializationError s => "Serialization error: " ++ s
  | .RpcError s => "RPC error: " ++ s
  | .TransactionError s => "Transaction error: " ++ s
  | .TemplateError s => "Template rendering error: " ++ s
  | .Unknown s => "Unknown error: " ++ s
  | .DependencyAnalysisFailed s => "Dependency analysis failed: " ++ s
  | .InvalidSetupRequirement => "Invalid setup requirement"
  | .InvalidPdaInitialization => "Invalid PDA initialization"
  | .InvalidTestCase => "Invalid test case"

/-! ## Analyzer-internal model (`dependency_analyzer.rs`) -/

inductive SeedType where
  | Static
  | AccountKey
  | Argument
deriving Repr, DecidableEq

inductive SeedSource where
  | Authority
  | UserAccount
  | Vault
  | Custom (path : String)
deriving Repr, DecidableEq

structure SeedInfo where
  seed_type : SeedType
  value : String
  source : SeedSource
deriving Repr, DecidableEq

inductive ConstraintType where
  | Init
  | Mut
  | Signer
  | Seeds
  | HasOne
  | Owner
  | Constraint
  | Close
  | Realloc
deriving Repr, DecidableEq

structure ConstraintInfo where
  constraint_type : ConstraintType
  value : Option String
deriving Repr, DecidableEq

structure AccountInfo where
  name : String
  is_pda : Bool
  is_signer : Bool
  is_mut : Bool
  initialized_by : Option String
  seeds : List SeedInfo
  used_in : List String
  constraints : List ConstraintInfo
deriving Repr, DecidableEq

inductive DependencyType where
  | Initialization
  | SeedDependency
  | Constraint
deriving Repr, DecidableEq

structure InstructionNode where
  name : String
  initializes : List String
  requires : List String
deriving Repr, DecidableEq

structure DependencyEdge where
  «from» : String
  «to» : String
  dependency_type : DependencyType
  account : String
deriving Repr, DecidableEq

structure DependencyGraph where
  nodes : List InstructionNode
  edges : List DependencyEdge
deriving Repr, DecidableEq

structure AccountRegistry where
  accounts : List AccountInfo
deriving Repr, DecidableEq

/-! ## Account registry construction (`dependency_analyzer.rs` lines 91-312) -/

/-- The update applied by `AccountRegistry::add_or_update_account` when a record
with the incoming account's name already exists (lines 99-107). -/
def mergeAccount (existing incoming : AccountInfo) : AccountInfo :=
  { existing with
    used_in := existing.used_in ++ incoming.used_in,
    initialized_by :=
      if incoming.initialized_by.isSome then incoming.initialized_by
      else existing.initialized_by,
    seeds := if incoming.seeds.isEmpty then existing.seeds else incoming.seeds }

/-- `AccountRegistry::add_or_update_account`: update the first record with the
same name in place, or push the incoming record at the end. -/
def add_or_update_account : List AccountInfo → AccountInfo → List AccountInfo
  | [], a => [a]
  | x :: xs, a =>
      if x.name == a.name then mergeAccount x a :: xs
      else x :: add_or_update_account xs a

/-- `AccountRegistry::get_account`. -/
def get_account (registry : AccountRegistry) (name : String) : Option AccountInfo :=
  registry.accounts.find? (fun a => a.name == name)

/-- `DependencyAnalyzerImpl::extract_has_one_value` (lines 306-312). -/
def extract_has_one_value (doc : String) : Option String :=
  match firstInfixIdx doc.data "has_one = ".data with
  | none => none
  | some start =>
      (firstWsToken (doc.data.drop (start + 10))).map (fun tok => ⟨trimQuotes tok⟩)

/-- Whether `instruction_name_lower` matches the init/create/initialize naming
heuristic of `parse_account_info` (lines 220-223). -/
def instrNameMatchesInit (instruction_name : String) : Bool :=
  let l := lowercase instruction_name
  strContains l "init" || strContains l "create" || strContains l "initialize"

/-- One step of the docs loop of `parse_account_info` (lines 237-290), acting
on the `(initialized_by, constraints)` state. -/
def parseDocStep (instruction_name : String)
    (st : Option String × List ConstraintInfo) (doc : String) :
    Option String × List ConstraintInfo :=
  if strIsEmpty doc then st
  else
    let st1 :=
      if strContains doc "init" && st.1.isNone then
        (some instruction_name, st.2 ++ [⟨.Init, none⟩])
      else st
    let cs := st1.2
    let cs :=
      if strContains doc "has_one" then cs ++ [⟨.HasOne, extract_has_one_value doc⟩]
      else cs
    let cs := if strContains doc "owner" then cs ++ [⟨.Owner, some doc⟩] else cs
    let cs :=
      if strContains doc "constraint" && !strContains doc "has_one" then
        cs ++ [⟨.Constraint, some doc⟩]
      else cs
    let cs := if strContains doc "close" then cs ++ [⟨.Close, some doc⟩] else cs
    let cs := if strContains doc "realloc" then cs ++ [⟨.Realloc, some doc⟩] else cs
    (st1.1, cs)

/-- Seed translation inside `parse_account_info` (lines 165-192). -/
def translateIdlSeed (idl_seed : IdlSeed) : SeedInfo :=
  let seed_type :=
    match idl_seed.kind with
    | "const" => SeedType.Static
    | "constant" => SeedType.Static
    | "arg" => SeedType.Argument
    | "argument" => SeedType.Argument
    | "account" => SeedType.AccountKey
    | _ => SeedType.Static
  let source :=
    if strContains idl_seed.path "authority" || strContains idl_seed.path "owner" then
      SeedSource.Authority
    else if strContains idl_seed.path "user" then SeedSource.UserAccount
    else if strContains idl_seed.path "vault" then SeedSource.Vault
    else SeedSource.Custom idl_seed.path
  { seed_type := seed_type, value := idl_seed.path, source := source }

/-- `DependencyAnalyzerImpl::parse_account_info` (lines 150-302).  The Rust
function returns `Ok` on every input, so it is embedded as total. -/
def parse_account_info (account_item : IdlAccountItem) (instruction : IdlInstruction) :
    AccountInfo :=
  let seeds :=
    match account_item.pda with
    | some pda_info => pda_info.seeds.map translateIdlSeed
    | none => []
  let is_pda := account_item.pda.isSome
  let constraints : List ConstraintInfo :=
    match account_item.pda with
    | some _ => [⟨.Seeds, some (toString seeds.length ++ " seeds")⟩]
    | none => []
  let constraints :=
    constraints ++ (if account_item.is_mut then [(⟨.Mut, none⟩ : ConstraintInfo)] else [])
  let constraints :=
    constraints ++ (if account_item.is_signer then [(⟨.Signer, none⟩ : ConstraintInfo)] else [])
  let nameMatches := instrNameMatchesInit instruction.name
  let initialized_by : Option String :=
    if nameMatches then some instruction.name else none
  let constraints :=
    constraints ++
      (if nameMatches && account_item.is_mut then [(⟨.Init, none⟩ : ConstraintInfo)] else [])
  let st := account_item.docs.foldl (parseDocStep instruction.name) (initialized_by, constraints)
  { name := account_item.name,
    is_pda := is_pda,
    is_signer := account_item.is_signer,
    is_mut := account_item.is_mut,
    initialized_by := st.1,
    seeds := seeds,
    used_in := [instruction.name],
    constraints := st.2 }

/-- `DependencyAnalyzerImpl::process_instruction_accounts`. -/
def process_instruction_accounts (instruction : IdlInstruction)
    (registry : List AccountInfo) : List AccountInfo :=
  instruction.accounts.foldl
    (fun reg item => add_or_update_account reg (parse_account_info item instruction)) registry

/-- `DependencyAnalyzerImpl::build_account_registry`: infallible in the source
(`Ok` on every input). -/
def build_account_registry (idl_data : IdlData) : AccountRegistry :=
  ⟨idl_data.instructions.foldl (fun reg i => process_instruction_accounts i reg) []⟩

/-- A registry obtained by merging a sequence of account observations, one
`add_or_update_account` call per observation, starting from the empty registry.
`build_account_registry` is exactly this fold over the per-item
`parse_account_info` results, in instruction order. -/
def registryOf (obs : List AccountInfo) : List AccountInfo :=
  obs.foldl add_or_update_account []

/-- The observation sequence `build_account_registry` feeds to
`add_or_update_account`: one `parse_account_info` result per
`(instruction, account_item)` pair, in IDL order. -/
def obsOf (idl_data : IdlData) : List AccountInfo :=
  (idl_data.instructions.map
    (fun i => i.accounts.map (fun item => parse_account_info item i))).flatten

theorem build_account_registry_eq_registryOf (idl_data : IdlData) :
    build_account_registry idl_data = ⟨registryOf (obsOf idl_data)⟩ := by
  suffices h : ∀ (instrs : List IdlInstruction) (acc : List AccountInfo),
      instrs.foldl (fun reg i => process_instruction_accounts i reg) acc =
        ((instrs.map (fun i => i.accounts.map (fun item => parse_account_info item i))).flatten).foldl
          add_or_update_account acc by
    simpa [build_account_registry, registryOf, obsOf] using h idl_data.instructions []
  intro instrs
  induction instrs with
  | nil => intro acc; simp
  | cons i rest ih =>
      intro acc
      simp only [List.map_cons, List.flatten_cons, List.foldl_append, List.foldl_cons]
      rw [ih]
      congr 1
      simp [process_instruction_accounts, List.foldl_map]

/-! ### Characterization of registry merging -/

theorem find?_add_or_update_self (accs : List AccountInfo) (a : AccountInfo) :
    (add_or_update_account accs a).find? (fun x => x.name == a.name) =
      some (match accs.find? (fun x => x.name == a.name) with
            | some r => mergeAccount r a
            | none => a) := by
  induction accs with
  | nil => simp [add_or_update_account]
  | cons x xs ih =>
      by_cases h : x.name = a.name
      · simp [add_or_update_account, h, List.find?_cons, mergeAccount]
      · have hb : (x.name == a.name) = false := by simp [h]
        simp [add_or_update_account, hb, List.find?_cons, ih]

theorem find?_add_or_update_other (accs : List AccountInfo) (a : AccountInfo)
    (n : String) (h : n ≠ a.name) :
    (add_or_update_account accs a).find? (fun x => x.name == n) =
      accs.find? (fun x => x.name == n) := by
  induction accs with
  | nil =>
      have hb : (a.name == n) = false := beq_eq_false_iff_ne.mpr (Ne.symm h)
      simp [add_or_update_account, hb]
  | cons x xs ih =>
      rw [add_or_update_account]
      by_cases hx : (x.name == a.name) = true
      · rw [if_pos hx]
        have hxa : x.name = a.name := by simpa using hx
        have hxn : (x.name == n) = false := by
          apply beq_eq_false_iff_ne.mpr
          rw [hxa]
          exact Ne.symm h
        have hmn : ((mergeAccount x a).name == n) = false := by
          simpa [mergeAccount] using hxn
        simp [List.find?_cons, hxn, hmn]
      · rw [if_neg hx, List.find?_cons, List.find?_cons]
        cases hxn : (x.name == n)
        · simp [ih]
        · simp

theorem registry_foldl_find (obs : List AccountInfo) :
    ∀ (accs : List AccountInfo) (n : String),
      (obs.foldl add_or_update_account accs).find? (fun x => x.name == n) =
        match accs.find? (fun x => x.name == n), obs.filter (fun a => a.name == n) with
        | some r, g => some (g.foldl mergeAccount r)
        | none, [] => none
        | none, g :: gs => some (gs.foldl mergeAccount g) := by
  induction obs with
  | nil =>
      intro accs n
      cases h : accs.find? (fun x => x.name == n) <;> simp [h]
  | cons a rest ih =>
      intro accs n
      by_cases hn : a.name = n
      · subst hn
        have hfilter : (a :: rest).filter (fun x => x.name == a.name) =
            a :: rest.filter (fun x => x.name == a.name) := by
          simp [List.filter_cons]
        have hself := find?_add_or_update_self accs a
        rw [List.foldl_cons, ih (add_or_update_account accs a) a.name, hself, hfilter]
        cases h : accs.find? (fun x => x.name == a.name) with
        | none => simp
        | some r => simp
      · have hfilter : (a :: rest).filter (fun x => x.name == n) =
            rest.filter (fun x => x.name == n) := by
          simp [List.filter_cons, hn]
        rw [List.foldl_cons, ih (add_or_update_account accs a) n,
          find?_add_or_update_other accs a n (fun e => hn e.symm), hfilter]

theorem foldl_merge_used_in (gs : List AccountInfo) :
    ∀ g : AccountInfo, (gs.foldl mergeAccount g).used_in =
      g.used_in ++ (gs.map (fun a => a.used_in)).flatten := by
  induction gs with
  | nil => intro g; simp
  | cons a rest ih => intro g; simp [ih, mergeAccount, List.append_assoc]

theorem foldl_merge_initialized_by (gs : List AccountInfo) :
    ∀ g : AccountInfo, (gs.foldl mergeAccount g).initialized_by =
      gs.foldl (fun acc a => if a.initialized_by.isSome then a.initialized_by else acc)
        g.initialized_by := by
  induction gs with
  | nil => intro g; simp
  | cons a rest ih =>
      intro g
      rw [List.foldl_cons, List.foldl_cons, ih]
      by_cases h : a.initialized_by.isSome <;> simp [mergeAccount, h]

theorem foldl_merge_seeds (gs : List AccountInfo) :
    ∀ g : AccountInfo, (gs.foldl mergeAccount g).seeds =
      gs.foldl (fun acc a => if a.seeds.isEmpty then acc else a.seeds) g.seeds := by
  induction gs with
  | nil => intro g; simp
  | cons a rest ih =>
      intro g
      rw [List.foldl_cons, List.foldl_cons, ih]
      by_cases h : a.seeds.isEmpty <;> simp [mergeAccount, h]

theorem foldl_merge_flags (gs : List AccountInfo) :
    ∀ g : AccountInfo,
      (gs.foldl mergeAccount g).is_pda = g.is_pda ∧
      (gs.foldl mergeAccount g).is_signer = g.is_signer ∧
      (gs.foldl mergeAccount g).is_mut = g.is_mut := by
  induction gs with
  | nil => intro g; simp
  | cons a rest ih => intro g; simpa [mergeAccount] using ih (mergeAccount g a)

/-! ### Characterization of the initializer inference -/

theorem parseDocStep_fst (iname : String) (st : Option String × List ConstraintInfo)
    (doc : String) :
    (parseDocStep iname st doc).1 =
      if strIsEmpty doc = false ∧ strContains doc "init" = true ∧ st.1 = none
      then some iname else st.1 := by
  rcases st with ⟨ib, cs⟩
  rw [parseDocStep]
  by_cases h1 : strIsEmpty doc
  · simp [h1]
  · by_cases h2 : strContains doc "init"
    · cases ib <;> simp [h1, h2]
    · cases ib <;> simp [h1, h2]

theorem foldl_parseDocStep_fst (iname : String) (docs : List String) :
    ∀ st : Option String × List ConstraintInfo,
      (docs.foldl (parseDocStep iname) st).1 =
        if st.1.isSome then st.1
        else if docs.any (fun d => !strIsEmpty d && strContains d "init")
        then some iname else none := by
  induction docs with
  | nil => intro st; cases h : st.1 <;> simp [h]
  | cons d rest ih =>
      intro st
      rw [List.foldl_cons, ih (parseDocStep iname st d), parseDocStep_fst]
      cases hst : st.1 with
      | some x => simp
      | none =>
          by_cases h1 : strIsEmpty d
          · simp [h1, List.any_cons]
          · by_cases h2 : strContains d "init"
            · simp [h1, h2, List.any_cons]
            · simp [h1, h2, List.any_cons]

/-- C1 (amended): `parse_account_info` sets
`initializer = Some(instruction.name)` exactly when the instruction's name
contains (case-insensitively) "init", "create", or "initialize" —
independently of whether the account item is mutable — or, failing that, when
one of the account's non-empty doc strings contains "init".  Mutability only
gates the extra `Init` constraint, never the initializer itself. -/
theorem initializer_inference_characterization
    (account_item : IdlAccountItem) (instruction : IdlInstruction) :
    (parse_account_info account_item instruction).initialized_by =
      if instrNameMatchesInit instruction.name then some instruction.name
      else if account_item.docs.any (fun d => !strIsEmpty d && strContains d "init")
      then some instruction.name else none := by
  rw [parse_account_info]
  by_cases h : instrNameMatchesInit instruction.name
  · simp only [h, if_true]
    rw [foldl_parseDocStep_fst]
    simp
  · simp only [h, if_false]
    rw [foldl_parseDocStep_fst]
    simp

def c1_item : IdlAccountItem :=
  { name := "acc", is_mut := false, is_signer := false, is_optional := false,
    docs := [], pda := none }

def c1_instr : IdlInstruction :=
  { name := "create_foo", accounts := [c1_item], args := [], docs := [] }

/-- C1 counterexample: for the immutable account item `c1_item` of instruction
`create_foo` (name matches the heuristic), the parsed record nonetheless has
`initialized_by = some "create_foo"`, although the claim requires the
initializer not to be set when the account is not mutable. -/
theorem initializer_set_for_immutable_account :
    instrNameMatchesInit c1_instr.name = true ∧ c1_item.is_mut = false ∧
    (parse_account_info c1_item c1_instr).initialized_by = some "create_foo" := by
  refine ⟨by decide, rfl, by decide⟩

/-- C2 (amended): merging a sequence of observations of the same name produces
one record whose `used_in` is the concatenation (hence, elementwise, the union)
of all observations' `used_in`, whose `seeds` equal the most recent observation
with non-empty seeds, and whose `initializer` equals the most recent
observation that assigned one — a later assignment replaces an earlier one. -/
theorem registry_merge_semantics (obs : List AccountInfo) (n : String)
    (g : AccountInfo) (gs : List AccountInfo)
    (h : obs.filter (fun a => a.name == n) = g :: gs) :
    ∃ r, (registryOf obs).find? (fun a => a.name == n) = some r ∧
      r.used_in = ((g :: gs).map (fun a => a.used_in)).flatten ∧
      r.initialized_by =
        (g :: gs).foldl
          (fun acc a => if a.initialized_by.isSome then a.initialized_by else acc) none ∧
      r.seeds =
        (g :: gs).foldl (fun acc a => if a.seeds.isEmpty then acc else a.seeds) [] := by
  have hfind := registry_foldl_find obs [] n
  rw [h] at hfind
  simp only [List.find?_nil] at hfind
  refine ⟨gs.foldl mergeAccount g, ?_, ?_, ?_, ?_⟩
  · rw [registryOf, hfind]
  · rw [foldl_merge_used_in]
    simp
  · rw [foldl_merge_initialized_by, List.foldl_cons]
    cases hg : g.initialized_by <;> simp [hg]
  · rw [foldl_merge_seeds, List.foldl_cons]
    cases hg : g.seeds with
    | nil => simp
    | cons s ss => simp [hg]

def c2_obs1 : AccountInfo :=
  { name := "x", is_pda := false, is_signer := false, is_mut := true,
    initialized_by := some "I1", seeds := [], used_in := ["I1"], constraints := [] }

def c2_obs2 : AccountInfo :=
  { name := "x", is_pda := false, is_signer := false, is_mut := true,
    initialized_by := some "I2", seeds := [], used_in := ["I2"], constraints := [] }

/-- C2 counterexample: observation `c2_obs1` assigns initializer "I1" first, yet
after merging the later observation `c2_obs2` (initializer "I2") the registry
record carries "I2": a later observation replaces an already-assigned
initializer, contrary to the claim. -/
theorem initializer_overwritten_by_later_observation :
    c2_obs1.initialized_by = some "I1" ∧ c2_obs2.initialized_by = some "I2" ∧
    ((registryOf [c2_obs1, c2_obs2]).find? (fun a => a.name == "x")).map
        (fun r => r.initialized_by) = some (some "I2") := by
  refine ⟨rfl, rfl, by decide⟩

theorem registry_merge_semantics_witness :
    ∃ r, (registryOf [c2_obs1, c2_obs2]).find? (fun a => a.name == "x") = some r ∧
      r.used_in = (([c2_obs1, c2_obs2]).map (fun a => a.used_in)).flatten ∧
      r.initialized_by =
        ([c2_obs1, c2_obs2]).foldl
          (fun acc a => if a.initialized_by.isSome then a.initialized_by else acc) none ∧
      r.seeds =
        ([c2_obs1, c2_obs2]).foldl
          (fun acc a => if a.seeds.isEmpty then acc else a.seeds) [] :=
  registry_merge_semantics [c2_obs1, c2_obs2] "x" c2_obs1 [c2_obs2] (by decide)

/-- C10: merging an observation into an already-registered account never
changes the record's `is_pda`, `is_signer` or `is_mut` flags, while a non-empty
incoming seed list replaces the stored seeds.  In particular a record first
seen without a PDA descriptor keeps `is_pda = false` even when a later
observation supplies seeds. -/
theorem merge_preserves_identity_flags (accs : List AccountInfo) (a r : AccountInfo)
    (h : accs.find? (fun x => x.name == a.name) = some r) :
    ∃ r', (add_or_update_account accs a).find? (fun x => x.name == a.name) = some r' ∧
      r'.is_pda = r.is_pda ∧ r'.is_signer = r.is_signer ∧ r'.is_mut = r.is_mut ∧
      (a.seeds.isEmpty = false → r'.seeds = a.seeds) := by
  refine ⟨mergeAccount r a, ?_, rfl, rfl, rfl, ?_⟩
  · rw [find?_add_or_update_self, h]
  · intro hs
    simp [mergeAccount, hs]

def c10_first : AccountInfo :=
  { name := "pda_acc", is_pda := false, is_signer := false, is_mut := true,
    initialized_by := none, seeds := [], used_in := ["I1"], constraints := [] }

def c10_later : AccountInfo :=
  { name := "pda_acc", is_pda := true, is_signer := false, is_mut := true,
    initialized_by := none,
    seeds := [{ seed_type := .AccountKey, value := "auth", source := .Authority }],
    used_in := ["I2"], constraints := [] }

theorem merge_preserves_identity_flags_witness :
    ∃ r', (add_or_update_account [c10_first] c10_later).find?
            (fun x => x.name == c10_later.name) = some r' ∧
      r'.is_pda = c10_first.is_pda ∧ r'.is_signer = c10_first.is_signer ∧
      r'.is_mut = c10_first.is_mut ∧
      (c10_later.seeds.isEmpty = false → r'.seeds = c10_later.seeds) :=
  merge_preserves_identity_flags [c10_first] c10_later c10_first (by decide)

/-! ## Instruction topological sort
(`AccountOrder::get_sorted_instructions`, `analyzer/src/account_order.rs`
lines 60-99).

The Rust code keeps in-degrees in a `HashMap<String, i32>`; the embedding uses
an association list with `HashMap::insert` semantics and takes the map's
iteration order (used to seed the queue) as the explicit `keyOrder` parameter.
Degrees are `Int`, matching release-mode wrap-free behaviour on the inputs the
theorems quantify over (a decrement below zero never reaches zero again). -/

/-- `HashMap::get`. -/
def lookupDeg : List (String × Int) → String → Option Int
  | [], _ => none
  | (k, v) :: rest, n => if k == n then some v else lookupDeg rest n

/-- `HashMap::insert`: replace the value of an existing key, or append. -/
def setDeg : List (String × Int) → String → Int → List (String × Int)
  | [], n, v => [(n, v)]
  | (k, w) :: rest, n, v =>
      if k == n then (n, v) :: rest else (k, w) :: setDeg rest n v

/-- `*in_degree.get_mut(&edge.to).unwrap() += 1`; the `unwrap` cannot fail when
every edge target is a node name, which the theorems assume. -/
def incDeg (m : List (String × Int)) (n : String) : List (String × Int) :=
  match lookupDeg m n with
  | some d => setDeg m n (d + 1)
  | none => m

/-- `*degree -= 1` on `in_degree.get_mut(&edge.to).unwrap()`. -/
def decDeg (m : List (String × Int)) (n : String) : List (String × Int) :=
  match lookupDeg m n with
  | some d => setDeg m n (d - 1)
  | none => m

/-- The inner `for edge in &graph.edges` loop of the Kahn `while` body
(lines 83-91): decrement the in-degree of each edge target whose source is the
dequeued node, enqueueing targets whose degree reaches zero. -/
def processEdges (u : String) :
    List DependencyEdge → List (String × Int) × List String →
    List (String × Int) × List String
  | [], st => st
  | e :: es, st =>
      if e.«from» == u then
        let m' := decDeg st.1 e.«to»
        let q' := if lookupDeg m' e.«to» == some 0 then st.2 ++ [e.«to»] else st.2
        processEdges u es (m', q')
      else processEdges u es st

/-- The `while let Some(node) = queue.pop_front()` loop (lines 80-92), with
explicit fuel.  Every name enters the queue at most once, so
`nodes.length + 1` units of fuel always outlast the loop. -/
def kahnLoop (edges : List DependencyEdge) :
    Nat → List (String × Int) × List String × List String →
    List (String × Int) × List String × List String
  | 0, st => st
  | fuel + 1, (m, q, sorted) =>
      match q with
      | [] => (m, [], sorted)
      | u :: qrest =>
          let st' := processEdges u edges (m, qrest)
          kahnLoop edges fuel (st'.1, st'.2, sorted ++ [u])

/-- `AccountOrder::get_sorted_instructions`.  `keyOrder` is the iteration
order of the `in_degree` hash map when the initial queue is collected. -/
def get_sorted_instructions (graph : DependencyGraph) (keyOrder : List String) :
    Except SolifyError (List String) :=
  let m0 := graph.nodes.foldl (fun m node => setDeg m node.name 0) []
  let m1 := graph.edges.foldl (fun m e => incDeg m e.«to») m0
  let q0 := keyOrder.filter (fun k => lookupDeg m1 k == some 0)
  let res := kahnLoop graph.edges (graph.nodes.length + 1) (m1, q0, [])
  if res.2.2.length ≠ graph.nodes.length then .error .CircularDependency
  else .ok res.2.2

/-- The node names of a graph. -/
def nodeNames (g : DependencyGraph) : List String := g.nodes.map (fun n => n.name)

/-- Well-formed dependency graph: distinct node names and edges between
existing nodes (exactly the graphs `build_dependency_graph` produces from a
duplicate-free execution order; edge endpoints outside the node set would make
the Rust `unwrap` at line 69/85 panic). -/
def WellFormedGraph (g : DependencyGraph) : Prop :=
  (nodeNames g).Nodup ∧
    ∀ e ∈ g.edges, e.«from» ∈ nodeNames g ∧ e.«to» ∈ nodeNames g

/-- Acyclicity of the edge relation, expressed by the existence of a linear
order of names in which every edge points forward. -/
def Acyclic (g : DependencyGraph) : Prop :=
  ∃ ord : List String, ∀ e ∈ g.edges, ord.indexOf e.«from» < ord.indexOf e.«to»

/-- `keyOrder` enumerates the keys of the in-degree map: the node names, each
exactly once, in an arbitrary order. -/
def KeyOrderOk (g : DependencyGraph) (keyOrder : List String) : Prop :=
  keyOrder.Nodup ∧ ∀ v, v ∈ keyOrder ↔ v ∈ nodeNames g

/-- Number of edges into `v`. -/
def countIn (g : DependencyGraph) (v : String) : Nat :=
  g.edges.countP (fun e => e.«to» == v)

/-- Number of edges into `v` whose source has already been emitted. -/
def countDone (g : DependencyGraph) (sorted : List String) (v : String) : Nat :=
  g.edges.countP (fun e => e.«to» == v && decide (e.«from» ∈ sorted))

/-- Number of edges `u → v`. -/
def cntEdge (es : List DependencyEdge) (u v : String) : Nat :=
  es.countP (fun e => e.«from» == u && e.«to» == v)

theorem lookupDeg_setDeg (m : List (String × Int)) (k : String) (v : Int)
    (x : String) :
    lookupDeg (setDeg m k v) x = if x = k then some v else lookupDeg m x := by
  induction m with
  | nil =>
      by_cases h : x = k
      · simp [setDeg, lookupDeg, h]
      · have hb : (k == x) = false := beq_eq_false_iff_ne.mpr (Ne.symm h)
        simp [setDeg, lookupDeg, hb, h]
  | cons p rest ih =>
      rcases p with ⟨a, b⟩
      by_cases ha : a = k
      · subst ha
        rw [setDeg, if_pos (by simp)]
        by_cases hx : x = a
        · subst hx
          simp [lookupDeg]
        · have h1 : (a == x) = false := beq_eq_false_iff_ne.mpr (Ne.symm hx)
          simp [lookupDeg, h1, hx]
      · rw [setDeg, if_neg (by simpa using ha)]
        by_cases hx : x = a
        · subst hx
          have h2 : ¬x = k := fun h => ha h
          simp [lookupDeg, h2]
        · have h1 : (a == x) = false := beq_eq_false_iff_ne.mpr (Ne.symm hx)
          simp [lookupDeg, h1, ih]

theorem lookupDeg_decDeg (m : List (String × Int)) (n x : String) :
    lookupDeg (decDeg m n) x =
      if x = n then (lookupDeg m n).map (fun d => d - 1) else lookupDeg m x := by
  rw [decDeg]
  cases h : lookupDeg m n with
  | none => by_cases hx : x = n <;> simp [hx, h]
  | some d => rw [lookupDeg_setDeg]; by_cases hx : x = n <;> simp [hx, h]

theorem lookupDeg_incDeg (m : List (String × Int)) (n x : String) :
    lookupDeg (incDeg m n) x =
      if x = n then (lookupDeg m n).map (fun d => d + 1) else lookupDeg m x := by
  rw [incDeg]
  cases h : lookupDeg m n with
  | none => by_cases hx : x = n <;> simp [hx, h]
  | some d => rw [lookupDeg_setDeg]; by_cases hx : x = n <;> simp [hx, h]

theorem lookupDeg_init_nodes (nodes : List InstructionNode) :
    ∀ (m : List (String × Int)) (x : String),
      lookupDeg (nodes.foldl (fun m node => setDeg m node.name 0) m) x =
        if x ∈ nodes.map (fun n => n.name) then some 0 else lookupDeg m x := by
  induction nodes with
  | nil => intro m x; simp
  | cons node rest ih =>
      intro m x
      rw [List.foldl_cons, ih]
      by_cases hr : x ∈ rest.map (fun n => n.name)
      · simp [hr]
      · by_cases hx : x = node.name
        · simp [hr, hx, lookupDeg_setDeg]
        · simp [hr, hx, lookupDeg_setDeg]

theorem lookupDeg_init_edges (es : List DependencyEdge) :
    ∀ (m : List (String × Int)) (x : String),
      lookupDeg (es.foldl (fun m e => incDeg m e.«to») m) x =
        (lookupDeg m x).map
          (fun d => d + (es.countP (fun e => e.«to» == x) : Int)) := by
  induction es with
  | nil => intro m x; cases h : lookupDeg m x <;> simp [h]
  | cons e rest ih =>
      intro m x
      rw [List.foldl_cons, ih, lookupDeg_incDeg, List.countP_cons]
      by_cases hx : x = e.«to»
      · subst hx
        cases h : lookupDeg m e.«to» with
        | none => simp [h]
        | some d =>
            simp [h]
            omega
      · have hb : (e.«to» == x) = false := beq_eq_false_iff_ne.mpr (fun h => hx h.symm)
        simp [hx, hb]

theorem countP_and_or_disjoint {α : Type} (l : List α) (a b c : α → Bool)
    (h : ∀ x ∈ l, ¬(a x = true ∧ b x = true ∧ c x = true)) :
    l.countP (fun x => a x && (b x || c x)) =
      l.countP (fun x => a x && b x) + l.countP (fun x => a x && c x) := by
  induction l with
  | nil => simp
  | cons y ys ih =>
      have hy := h y (by simp)
      have ihy := ih (fun x hx => h x (by simp [hx]))
      rw [List.countP_cons, List.countP_cons, List.countP_cons, ihy]
      cases ha : a y <;> cases hb : b y <;> cases hc : c y <;>
        simp_all <;> omega

theorem countP_and_eq_imp {α : Type} (l : List α) (p q : α → Bool)
    (h : l.countP (fun x => p x && q x) = l.countP p) :
    ∀ x ∈ l, p x = true → q x = true := by
  induction l with
  | nil => simp
  | cons y ys ih =>
      have hle : ys.countP (fun x => p x && q x) ≤ ys.countP p :=
        List.countP_mono_left (by intro x _ hx; exact Bool.and_elim_left hx)
      rw [List.countP_cons, List.countP_cons] at h
      intro x hx hp
      rcases List.mem_cons.mp hx with rfl | hmem
      · cases hq : q x
        · rw [hp, hq] at h
          simp at h
          omega
        · rfl
      · refine ih ?_ x hmem hp
        cases hpy : p y <;> cases hqy : q y <;> rw [hpy, hqy] at h <;>
          simp at h <;> omega

theorem countDone_le_countIn (g : DependencyGraph) (sorted : List String)
    (v : String) : countDone g sorted v ≤ countIn g v := by
  exact List.countP_mono_left (by intro e _ he; exact Bool.and_elim_left he)

theorem countDone_append_single (g : DependencyGraph) (sorted : List String)
    (u v : String) (hu : u ∉ sorted) :
    countDone g (sorted ++ [u]) v = countDone g sorted v + cntEdge g.edges u v := by
  rw [countDone, countDone, cntEdge]
  have hcongr : ∀ e ∈ g.edges,
      (e.«to» == v && decide (e.«from» ∈ sorted ++ [u])) = true ↔
        (e.«to» == v && (decide (e.«from» ∈ sorted) || decide (e.«from» = u))) = true := by
    intro e _
    by_cases h1 : e.«from» ∈ sorted <;> by_cases h2 : e.«from» = u <;>
      simp [h1, h2]
  rw [List.countP_congr hcongr, countP_and_or_disjoint]
  · congr 1
    apply List.countP_congr
    intro e _
    by_cases h1 : e.«to» = v <;> by_cases h2 : e.«from» = u <;> simp [h1, h2]
  · rintro e _ ⟨_, hb, hc⟩
    have hmem : e.«from» ∈ sorted := of_decide_eq_true hb
    have heq : e.«from» = u := of_decide_eq_true hc
    exact hu (heq ▸ hmem)

theorem processEdges_spec (u : String) :
    ∀ (es : List DependencyEdge) (m : List (String × Int)) (q : List String),
      (∀ e ∈ es, e.«from» = u → (lookupDeg m e.«to»).isSome) →
      (∀ x, lookupDeg (processEdges u es (m, q)).1 x =
          (lookupDeg m x).map (fun d => d - (cntEdge es u x : Int))) ∧
      ∃ extra : List String,
        (processEdges u es (m, q)).2 = q ++ extra ∧ extra.Nodup ∧
        (∀ v ∈ extra, ∃ d : Int,
          lookupDeg m v = some d ∧ 1 ≤ d ∧ d ≤ (cntEdge es u v : Int)) ∧
        (∀ v : String, ∀ d : Int, lookupDeg m v = some d → 1 ≤ d →
          d ≤ (cntEdge es u v : Int) → v ∈ extra) := by
  intro es
  induction es with
  | nil =>
      intro m q _
      constructor
      · intro x
        cases h : lookupDeg m x <;> simp [processEdges, h, cntEdge]
      · refine ⟨[], by simp [processEdges], List.nodup_nil, by simp, ?_⟩
        intro v d _ h1 h2
        rw [cntEdge] at h2
        simp at h2
        omega
  | cons e es ih =>
      intro m q hdom
      by_cases hfu : e.«from» = u
      swap
      · have hb : (e.«from» == u) = false := beq_eq_false_iff_ne.mpr hfu
        have step : processEdges u (e :: es) (m, q) = processEdges u es (m, q) := by
          rw [processEdges, hb]
          simp
        have hcnt : ∀ v, cntEdge (e :: es) u v = cntEdge es u v := by
          intro v
          simp [cntEdge, List.countP_cons, hb]
        obtain ⟨hdeg, extra, hq, hnd, hfwd, hbwd⟩ :=
          ih m q (fun e' he' => hdom e' (List.mem_cons_of_mem _ he'))
        rw [step]
        refine ⟨fun x => by rw [hdeg, hcnt], extra, hq, hnd, ?_, ?_⟩
        · intro v hv
          obtain ⟨d, h1, h2, h3⟩ := hfwd v hv
          exact ⟨d, h1, h2, by rw [hcnt]; exact h3⟩
        · intro v d h1 h2 h3
          exact hbwd v d h1 h2 (by rw [hcnt] at h3; exact h3)
      · -- e.«from» = u : decrement e.«to» and possibly push it
        have hb : (e.«from» == u) = true := by simp [hfu]
        obtain ⟨d0, hd0⟩ := Option.isSome_iff_exists.mp
          (hdom e (List.mem_cons_self _ _) hfu)
        have hm1 : ∀ x, lookupDeg (decDeg m e.«to») x =
            if x = e.«to» then some (d0 - 1) else lookupDeg m x := by
          intro x
          rw [lookupDeg_decDeg, hd0]
          by_cases hx : x = e.«to» <;> simp [hx]
        have hcnt_to : cntEdge (e :: es) u e.«to» = cntEdge es u e.«to» + 1 := by
          simp [cntEdge, List.countP_cons, hb]
        have hcnt_ne : ∀ v, v ≠ e.«to» → cntEdge (e :: es) u v = cntEdge es u v := by
          intro v hv
          have : (e.«to» == v) = false := beq_eq_false_iff_ne.mpr (Ne.symm hv)
          simp [cntEdge, List.countP_cons, this]
        have hdom1 : ∀ e' ∈ es, e'.«from» = u → (lookupDeg (decDeg m e.«to») e'.«to»).isSome := by
          intro e' he' hf'
          rw [hm1]
          by_cases hx : e'.«to» = e.«to»
          · simp [hx]
          · rw [if_neg hx]
            exact hdom e' (List.mem_cons_of_mem _ he') hf'
        by_cases hp : lookupDeg (decDeg m e.«to») e.«to» = some 0
        · -- target reaches zero: it is pushed
          have hd01 : d0 = 1 := by
            rw [hm1] at hp
            simp at hp
            omega
          have hpb : (lookupDeg (decDeg m e.«to») e.«to» == some 0) = true := by
            simp [hp]
          have step : processEdges u (e :: es) (m, q) =
              processEdges u es (decDeg m e.«to», q ++ [e.«to»]) := by
            rw [processEdges, hb]
            simp [hpb]
          obtain ⟨hdeg, extra1, hq1, hnd1, hfwd1, hbwd1⟩ :=
            ih (decDeg m e.«to») (q ++ [e.«to»]) hdom1
          have hto_not_extra1 : e.«to» ∉ extra1 := by
            intro hmem
            obtain ⟨d1, h1, h2, _⟩ := hfwd1 e.«to» hmem
            rw [hm1, if_pos rfl] at h1
            have : d1 = d0 - 1 := by injection h1 with h; omega
            omega
          rw [step]
          constructor
          · intro x
            rw [hdeg x, hm1 x]
            by_cases hx : x = e.«to»
            · subst hx
              rw [if_pos rfl, hd0, hcnt_to]
              simp
              omega
            · rw [if_neg hx, hcnt_ne x hx]
          · refine ⟨e.«to» :: extra1, ?_, ?_, ?_, ?_⟩
            · rw [hq1]
              simp
            · exact List.nodup_cons.mpr ⟨hto_not_extra1, hnd1⟩
            · intro v hv
              rcases List.mem_cons.mp hv with rfl | hv1
              · refine ⟨d0, hd0, by omega, ?_⟩
                rw [hcnt_to]
                omega
              · obtain ⟨d1, h1, h2, h3⟩ := hfwd1 v hv1
                have hvne : v ≠ e.«to» := fun h => hto_not_extra1 (h ▸ hv1)
                rw [hm1, if_neg hvne] at h1
                refine ⟨d1, h1, h2, ?_⟩
                rw [hcnt_ne v hvne]
                exact h3
            · intro v d h1 h2 h3
              by_cases hv : v = e.«to»
              · exact hv ▸ List.mem_cons_self _ _
              · apply List.mem_cons_of_mem
                refine hbwd1 v d ?_ h2 ?_
                · rw [hm1, if_neg hv]
                  exact h1
                · rw [hcnt_ne v hv] at h3
                  exact h3
        · -- target does not reach zero: nothing pushed at this step
          have hpb : (lookupDeg (decDeg m e.«to») e.«to» == some 0) = false := by
            simp [hp]
          have step : processEdges u (e :: es) (m, q) =
              processEdges u es (decDeg m e.«to», q) := by
            rw [processEdges, hb]
            simp [hpb]
          have hd0ne1 : d0 ≠ 1 := by
            intro h
            apply hp
            rw [hm1, if_pos rfl, h]
            simp
          obtain ⟨hdeg, extra1, hq1, hnd1, hfwd1, hbwd1⟩ :=
            ih (decDeg m e.«to») q hdom1
          rw [step]
          constructor
          · intro x
            rw [hdeg x, hm1 x]
            by_cases hx : x = e.«to»
            · subst hx
              rw [if_pos rfl, hd0, hcnt_to]
              simp
              omega
            · rw [if_neg hx, hcnt_ne x hx]
          · refine ⟨extra1, hq1, hnd1, ?_, ?_⟩
            · intro v hv
              obtain ⟨d1, h1, h2, h3⟩ := hfwd1 v hv
              by_cases hvne : v = e.«to»
              · subst hvne
                rw [hm1, if_pos rfl] at h1
                have hd1 : d1 = d0 - 1 := by injection h1 with h; omega
                refine ⟨d0, hd0, by omega, ?_⟩
                rw [hcnt_to]
                omega
              · rw [hm1, if_neg hvne] at h1
                refine ⟨d1, h1, h2, ?_⟩
                rw [hcnt_ne v hvne]
                exact h3
            · intro v d h1 h2 h3
              by_cases hv : v = e.«to»
              · subst hv
                have hdd0 : d = d0 := by rw [h1] at hd0; injection hd0
                subst hdd0
                refine hbwd1 e.«to» (d - 1) ?_ ?_ ?_
                · rw [hm1, if_pos rfl]
                · omega
                · rw [hcnt_to] at h3
                  omega
              · refine hbwd1 v d ?_ h2 ?_
                · rw [hm1, if_neg hv]
                  exact h1
                · rw [hcnt_ne v hv] at h3
                  exact h3

/-- Loop invariant of the Kahn main loop. -/
structure KahnInv (g : DependencyGraph) (m : List (String × Int))
    (q sorted : List String) : Prop where
  dom : ∀ v, (lookupDeg m v).isSome ↔ v ∈ nodeNames g
  deg : ∀ v ∈ nodeNames g,
    lookupDeg m v = some ((countIn g v : Int) - (countDone g sorted v : Int))
  nd : (sorted ++ q).Nodup
  qmem : ∀ v ∈ q, v ∈ nodeNames g
  smem : ∀ v ∈ sorted, v ∈ nodeNames g
  stuck : ∀ v ∈ nodeNames g, v ∉ sorted → v ∉ q → lookupDeg m v ≠ some 0
  qready : ∀ v ∈ q, ∀ e ∈ g.edges, e.«to» = v → e.«from» ∈ sorted
  sorder : ∀ e ∈ g.edges, e.«to» ∈ sorted →
    e.«from» ∈ sorted ∧ sorted.indexOf e.«from» < sorted.indexOf e.«to»

theorem ready_countDone_eq (g : DependencyGraph) (sorted : List String) (v : String)
    (h : ∀ e ∈ g.edges, e.«to» = v → e.«from» ∈ sorted) :
    countDone g sorted v = countIn g v := by
  rw [countDone, countIn]
  apply List.countP_congr
  intro e he
  by_cases hv : e.«to» = v
  · simp [hv, h e he hv]
  · have : (e.«to» == v) = false := beq_eq_false_iff_ne.mpr hv
    simp [this]

theorem kahnStep (g : DependencyGraph) (hwf : WellFormedGraph g)
    (m : List (String × Int)) (u : String) (qrest sorted : List String)
    (inv : KahnInv g m (u :: qrest) sorted) :
    KahnInv g (processEdges u g.edges (m, qrest)).1
      (processEdges u g.edges (m, qrest)).2 (sorted ++ [u]) := by
  have hdomspec : ∀ e ∈ g.edges, e.«from» = u → (lookupDeg m e.«to»).isSome := by
    intro e he _
    exact (inv.dom e.«to»).mpr (hwf.2 e he).2
  obtain ⟨hdeg, extra, hq, hndx, hfwd, hbwd⟩ := processEdges_spec u g.edges m qrest hdomspec
  have humem : u ∈ nodeNames g := inv.qmem u (List.mem_cons_self _ _)
  have hnd0 : ((sorted ++ [u]) ++ qrest).Nodup := by
    have h := inv.nd
    rwa [List.append_cons] at h
  have husorted : u ∉ sorted := by
    have h1 := (List.nodup_append.mp hnd0).1
    have h2 := (List.nodup_append.mp h1).2.2
    intro hmem
    exact h2 hmem (List.mem_singleton_self u)
  -- new degrees
  have hdeg' : ∀ v ∈ nodeNames g,
      lookupDeg (processEdges u g.edges (m, qrest)).1 v =
        some ((countIn g v : Int) - (countDone g (sorted ++ [u]) v : Int)) := by
    intro v hv
    rw [hdeg v, inv.deg v hv, countDone_append_single g sorted u v husorted]
    simp
    ring
  -- fresh queue entries never collide with previously seen names
  have hzero_of_ready : ∀ v ∈ nodeNames g,
      (∀ e ∈ g.edges, e.«to» = v → e.«from» ∈ sorted) → lookupDeg m v = some 0 := by
    intro v hv hready
    rw [inv.deg v hv, ready_countDone_eq g sorted v hready]
    simp
  have hextra_fresh : ∀ v ∈ extra, v ∉ sorted ∧ v ≠ u ∧ v ∉ qrest := by
    intro v hvx
    obtain ⟨d, hld, hd1, _⟩ := hfwd v hvx
    have hvnames : v ∈ nodeNames g := (inv.dom v).mp (by simp [hld])
    refine ⟨?_, ?_, ?_⟩
    · intro hvs
      have hz := hzero_of_ready v hvnames (fun e he hev => ((inv.sorder e he) (hev ▸ hvs)).1)
      rw [hld] at hz
      injection hz with h
      omega
    · rintro rfl
      have hz := hzero_of_ready v hvnames
        (inv.qready v (List.mem_cons_self _ _))
      rw [hld] at hz
      injection hz with h
      omega
    · intro hvq
      have hz := hzero_of_ready v hvnames
        (inv.qready v (List.mem_cons_of_mem _ hvq))
      rw [hld] at hz
      injection hz with h
      omega
  refine ⟨?_, hdeg', ?_, ?_, ?_, ?_, ?_, ?_⟩
  · -- dom
    intro v
    rw [hdeg v]
    rw [← inv.dom v]
    cases h : lookupDeg m v <;> simp [h]
  · -- nodup
    rw [hq, ← List.append_assoc]
    rw [List.nodup_append]
    refine ⟨hnd0, hndx, ?_⟩
    intro v hvA hvx
    obtain ⟨h1, h2, h3⟩ := hextra_fresh v hvx
    rcases List.mem_append.mp hvA with hvs | hvq
    · rcases List.mem_append.mp hvs with hvs' | hvu
      · exact h1 hvs'
      · exact h2 (List.mem_singleton.mp hvu)
    · exact h3 hvq
  · -- qmem
    rw [hq]
    intro v hv
    rcases List.mem_append.mp hv with h | h
    · exact inv.qmem v (List.mem_cons_of_mem _ h)
    · obtain ⟨d, hld, _, _⟩ := hfwd v h
      exact (inv.dom v).mp (by simp [hld])
  · -- smem
    intro v hv
    rcases List.mem_append.mp hv with h | h
    · exact inv.smem v h
    · exact (List.mem_singleton.mp h) ▸ humem
  · -- stuck
    intro v hv hvs hvq
    rw [hdeg v]
    have hvs0 : v ∉ sorted := fun h => hvs (List.mem_append_left _ h)
    have hvu : v ≠ u := fun h => hvs (List.mem_append_right _ (h ▸ List.mem_singleton_self u))
    have hvq0 : v ∉ qrest := fun h => hvq (hq ▸ List.mem_append_left _ h)
    have hvx : v ∉ extra := fun h => hvq (hq ▸ List.mem_append_right _ h)
    have hvq1 : v ∉ u :: qrest := by
      intro h
      rcases List.mem_cons.mp h with h | h
      · exact hvu h
      · exact hvq0 h
    have hstuck := inv.stuck v hv hvs0 hvq1
    rw [inv.deg v hv] at hstuck ⊢
    have hdnz : (countIn g v : Int) - (countDone g sorted v : Int) ≠ 0 := by
      intro h
      exact hstuck (by rw [h])
    have hnonneg : (0 : Int) ≤ (countIn g v : Int) - (countDone g sorted v : Int) := by
      have := countDone_le_countIn g sorted v
      omega
    intro hcontra
    simp only [Option.map_some'] at hcontra
    injection hcontra with hc
    apply hvx
    refine hbwd v ((countIn g v : Int) - (countDone g sorted v : Int)) (inv.deg v hv) (by omega) (by omega)
  · -- qready
    rw [hq]
    intro v hv e he hev
    rcases List.mem_append.mp hv with h | h
    · exact List.mem_append_left _ (inv.qready v (List.mem_cons_of_mem _ h) e he hev)
    · -- fresh entry: its in-degree reached zero, so all sources are emitted
      obtain ⟨d, hld, hd1, hdc⟩ := hfwd v h
      have hvnames : v ∈ nodeNames g := (inv.dom v).mp (by simp [hld])
      have hnew := hdeg' v hvnames
      rw [hdeg v, hld] at hnew
      simp only [Option.map_some'] at hnew
      injection hnew with hnew
      have hd' : d = (countIn g v : Int) - (countDone g sorted v : Int) :=
        Option.some.inj ((hld.symm).trans (inv.deg v hvnames))
      have hle : countDone g (sorted ++ [u]) v ≤ countIn g v :=
        countDone_le_countIn g _ v
      have hzero : countDone g (sorted ++ [u]) v = countIn g v := by omega
      have := countP_and_eq_imp g.edges (fun e => e.«to» == v)
        (fun e => decide (e.«from» ∈ sorted ++ [u])) hzero e he
      have hbv : (e.«to» == v) = true := by simp [hev]
      exact of_decide_eq_true (this hbv)
  · -- sorder
    intro e he hto
    rcases List.mem_append.mp hto with hts | htu
    · obtain ⟨hf, hlt⟩ := inv.sorder e he hts
      refine ⟨List.mem_append_left _ hf, ?_⟩
      rw [List.indexOf_append_of_mem hf, List.indexOf_append_of_mem hts]
      exact hlt
    · have hetou : e.«to» = u := List.mem_singleton.mp htu
      have hf : e.«from» ∈ sorted := inv.qready u (List.mem_cons_self _ _) e he hetou
      refine ⟨List.mem_append_left _ hf, ?_⟩
      rw [List.indexOf_append_of_mem hf, hetou,
        List.indexOf_append_of_not_mem husorted]
      have h1 : List.indexOf e.«from» sorted < sorted.length :=
        List.indexOf_lt_length.mpr hf
      have h2 : List.indexOf u [u] = 0 := List.indexOf_cons_self u []
      omega

end Solify

namespace Solify

theorem kahnLoop_run (g : DependencyGraph) (hwf : WellFormedGraph g) :
    ∀ (fuel : Nat) (m : List (String × Int)) (q sorted : List String),
      KahnInv g m q sorted →
      (nodeNames g).length + 1 ≤ fuel + sorted.length →
      ∃ m' sorted', kahnLoop g.edges fuel (m, q, sorted) = (m', [], sorted') ∧
        KahnInv g m' [] sorted' := by
  intro fuel
  induction fuel with
  | zero =>
      intro m q sorted inv hfuel
      exfalso
      have hnd : sorted.Nodup := (List.nodup_append.mp inv.nd).1
      have hsub : sorted ⊆ nodeNames g := fun v hv => inv.smem v hv
      have hle : sorted.length ≤ (nodeNames g).length :=
        (List.subperm_of_subset hnd hsub).length_le
      omega
  | succ fuel ih =>
      intro m q sorted inv hfuel
      cases q with
      | nil => exact ⟨m, sorted, by rw [kahnLoop], inv⟩
      | cons u qrest =>
          have step := kahnStep g hwf m u qrest sorted inv
          have hunfold : kahnLoop g.edges (fuel + 1) (m, u :: qrest, sorted) =
              kahnLoop g.edges fuel
                ((processEdges u g.edges (m, qrest)).1,
                  (processEdges u g.edges (m, qrest)).2, sorted ++ [u]) := by
            rw [kahnLoop]
          rw [hunfold]
          apply ih _ _ _ step
          simp only [List.length_append, List.length_singleton]
          omega

theorem kahn_initial_inv (g : DependencyGraph) (keyOrder : List String)
    (hko : KeyOrderOk g keyOrder) :
    KahnInv g
      (g.edges.foldl (fun m e => incDeg m e.«to»)
        (g.nodes.foldl (fun m node => setDeg m node.name 0) []))
      (keyOrder.filter
        (fun k => lookupDeg
          (g.edges.foldl (fun m e => incDeg m e.«to»)
            (g.nodes.foldl (fun m node => setDeg m node.name 0) [])) k == some 0))
      [] := by
  set m0 := g.nodes.foldl (fun m node => setDeg m node.name 0) [] with hm0
  set m1 := g.edges.foldl (fun m e => incDeg m e.«to») m0 with hm1
  have hlook0 : ∀ x, lookupDeg m0 x =
      if x ∈ nodeNames g then some 0 else none := by
    intro x
    rw [hm0, lookupDeg_init_nodes]
    by_cases hx : x ∈ nodeNames g <;> simp [hx, lookupDeg, nodeNames]
  have hlook1 : ∀ x, lookupDeg m1 x =
      if x ∈ nodeNames g then some ((countIn g x : Int)) else none := by
    intro x
    rw [hm1, lookupDeg_init_edges, hlook0]
    by_cases hx : x ∈ nodeNames g <;> simp [hx, countIn]
  refine ⟨?_, ?_, ?_, ?_, ?_, ?_, ?_, ?_⟩
  · intro v
    rw [hlook1]
    by_cases hv : v ∈ nodeNames g <;> simp [hv]
  · intro v hv
    rw [hlook1, if_pos hv]
    simp [countDone]
  · simp only [List.nil_append]
    exact List.Nodup.filter _ hko.1
  · intro v hv
    exact (hko.2 v).mp (List.mem_of_mem_filter hv)
  · intro v hv
    exact absurd hv (List.not_mem_nil v)
  · intro v hv _ hq
    intro hcontra
    apply hq
    apply List.mem_filter.mpr
    refine ⟨(hko.2 v).mpr hv, ?_⟩
    simp [hcontra]
  · intro v hv e he hev
    exfalso
    have hmem := List.mem_filter.mp hv
    have h0 : lookupDeg m1 v = some 0 := by
      have := hmem.2
      simpa using this
    rw [hlook1, if_pos ((hko.2 v).mp hmem.1)] at h0
    injection h0 with h0
    have hpos : 0 < countIn g v := by
      rw [countIn]
      apply List.countP_pos_iff.mpr
      exact ⟨e, he, by simp [hev]⟩
    omega
  · intro e _ hto
    exact absurd hto (List.not_mem_nil _)

end Solify

namespace Solify

/-- C4: on a well-formed graph, for every iteration order of the in-degree
map: if the edge relation is acyclic, `get_sorted_instructions` returns a
permutation of the node names in which the source of every edge precedes its
target; otherwise (the loop emits fewer nodes than the node count) it fails
with `CircularDependency`. -/
theorem kahn_topological_sort_correct (g : DependencyGraph) (keyOrder : List String)
    (hwf : WellFormedGraph g) (hko : KeyOrderOk g keyOrder) :
    (Acyclic g → ∃ l, get_sorted_instructions g keyOrder = .ok l ∧
        l.Perm (nodeNames g) ∧
        ∀ e ∈ g.edges, l.indexOf e.«from» < l.indexOf e.«to») ∧
    (¬Acyclic g → get_sorted_instructions g keyOrder = .error .CircularDependency) := by
  have hinit := kahn_initial_inv g keyOrder hko
  have hnames_len : (nodeNames g).length = g.nodes.length := by
    simp [nodeNames]
  obtain ⟨m', l, hrun, inv'⟩ :=
    kahnLoop_run g hwf (g.nodes.length + 1) _ _ [] hinit (by omega)
  have hres : get_sorted_instructions g keyOrder =
      if l.length ≠ g.nodes.length then .error .CircularDependency else .ok l := by
    simp only [get_sorted_instructions]
    rw [hrun]
  have hlnd : l.Nodup := by
    have h := inv'.nd
    simpa using h
  have hlsub : l ⊆ nodeNames g := fun v hv => inv'.smem v hv
  have hsubperm : List.Subperm l (nodeNames g) := List.subperm_of_subset hlnd hlsub
  have hmissing : ∀ v ∈ nodeNames g, v ∉ l →
      ∃ e ∈ g.edges, e.«to» = v ∧ e.«from» ∉ l := by
    intro v hv hvl
    have hst := inv'.stuck v hv hvl (List.not_mem_nil v)
    rw [inv'.deg v hv] at hst
    have hle := countDone_le_countIn g l v
    have hne : (countIn g v : Int) - (countDone g l v : Int) ≠ 0 :=
      fun h => hst (by rw [h])
    by_contra hcontra
    push_neg at hcontra
    have heq := ready_countDone_eq g l v hcontra
    omega
  have hcomplete : Acyclic g → ∀ v ∈ nodeNames g, v ∈ l := by
    rintro ⟨ord, hord⟩
    by_contra hc
    push_neg at hc
    obtain ⟨v0, hv0names, hv0notl⟩ := hc
    have hSne : ((nodeNames g).filter (fun v => decide (v ∉ l))).toFinset.Nonempty := by
      refine ⟨v0, ?_⟩
      simp [List.mem_filter, hv0names, hv0notl]
    obtain ⟨w, hw, hwmin⟩ :=
      ((nodeNames g).filter (fun v => decide (v ∉ l))).toFinset.exists_min_image
        (fun v => ord.indexOf v) hSne
    have hw' := List.mem_filter.mp (List.mem_toFinset.mp hw)
    have hwnames : w ∈ nodeNames g := hw'.1
    have hwnotl : w ∉ l := of_decide_eq_true hw'.2
    obtain ⟨e, he, heto, hefrom⟩ := hmissing w hwnames hwnotl
    have hfromS : e.«from» ∈ ((nodeNames g).filter (fun v => decide (v ∉ l))).toFinset := by
      rw [List.mem_toFinset, List.mem_filter]
      exact ⟨(hwf.2 e he).1, decide_eq_true hefrom⟩
    have hmin := hwmin e.«from» hfromS
    have hlt := hord e he
    rw [heto] at hlt
    omega
  constructor
  · intro hacyc
    have hsub2 : nodeNames g ⊆ l := fun v hv => hcomplete hacyc v hv
    have hsubperm2 : List.Subperm (nodeNames g) l := List.subperm_of_subset hwf.1 hsub2
    have hlen : l.length = (nodeNames g).length :=
      Nat.le_antisymm hsubperm.length_le hsubperm2.length_le
    have hperm : l.Perm (nodeNames g) :=
      hsubperm.perm_of_length_le (by omega)
    refine ⟨l, ?_, hperm, ?_⟩
    · rw [hres, if_neg (by omega)]
    · intro e he
      have hto : e.«to» ∈ l := hsub2 (hwf.2 e he).2
      exact (inv'.sorder e he hto).2
  · intro hnacyc
    rw [hres]
    by_cases hlen : l.length = g.nodes.length
    · exfalso
      apply hnacyc
      have hperm : l.Perm (nodeNames g) :=
        hsubperm.perm_of_length_le (by omega)
      refine ⟨l, ?_⟩
      intro e he
      have hto : e.«to» ∈ l := hperm.mem_iff.mpr (hwf.2 e he).2
      exact (inv'.sorder e he hto).2
    · rw [if_pos hlen]

end Solify

namespace Solify

/-! ## Account orderer (`analyzer/src/account_order.rs` lines 7-58, 101-124) -/

/-- `AccountDependency` (`common/src/types.rs`).  `initialization_order` is a
`u8` assigned with `saturating_add`; the embedding keeps it as a `Nat` that is
never incremented past 255, which coincides with the `u8` values. -/
structure AccountDependency where
  account_name : String
  depends_on : List String
  is_pda : Bool
  is_signer : Bool
  is_mut : Bool
  must_be_initialized : Bool
  initialization_order : Nat
deriving Repr, DecidableEq

/-- `initialization_order.saturating_add(1)` on `u8`. -/
def satAdd1 (n : Nat) : Nat := if n < 255 then n + 1 else n

/-- `AccountOrder::get_account_dependencies` (lines 101-124): AccountKey seed
values followed by `HasOne` constraint targets.  The registry argument is
unused in the source as well. -/
def get_account_dependencies (account : AccountInfo) : List String :=
  ((account.seeds.filter (fun s => s.seed_type == SeedType.AccountKey)).map
      (fun s => s.value)) ++
    ((account.constraints.filter
        (fun c => c.constraint_type == ConstraintType.HasOne)).filterMap
      (fun c => c.value))

/-- State step for the first pass of `generate_account_dependencies`
(lines 19-39): one initializing account of the current instruction node. -/
def pushInitializedAccount (registry : AccountRegistry)
    (st : List AccountDependency × Nat) (aname : String) :
    List AccountDependency × Nat :=
  match get_account registry aname with
  | none => st
  | some account =>
      (st.1 ++ [{ account_name := aname,
                  depends_on := get_account_dependencies account,
                  is_pda := account.is_pda,
                  is_signer := account.is_signer,
                  is_mut := account.is_mut,
                  must_be_initialized := account.initialized_by.isSome,
                  initialization_order := st.2 }],
        satAdd1 st.2)

/-- State step for the second pass (lines 42-55): external accounts that no
instruction initializes, appended unless already present. -/
def pushExternalAccount (st : List AccountDependency × Nat) (account : AccountInfo) :
    List AccountDependency × Nat :=
  if account.initialized_by.isNone &&
      !(st.1.any (fun ad => ad.account_name == account.name)) then
    (st.1 ++ [{ account_name := account.name,
                depends_on := [],
                is_pda := account.is_pda,
                is_signer := account.is_signer,
                is_mut := account.is_mut,
                must_be_initialized := false,
                initialization_order := st.2 }],
      satAdd1 st.2)
  else st

/-- One sorted-instruction step of the first pass (lines 19-39): look the node
up by name and emit one `AccountDependency` per registry account it
initializes. -/
def pass1Step (graph : DependencyGraph) (registry : AccountRegistry)
    (st : List AccountDependency × Nat) (iname : String) :
    List AccountDependency × Nat :=
  match graph.nodes.find? (fun n => n.name == iname) with
  | none => st
  | some node => node.initializes.foldl (pushInitializedAccount registry) st

/-- `AccountOrder::generate_account_dependencies` (lines 7-58).  `keyOrder` is
the iteration order of the in-degree map inside `get_sorted_instructions`. -/
def generate_account_dependencies (graph : DependencyGraph)
    (registry : AccountRegistry) (keyOrder : List String) :
    Except SolifyError (List AccountDependency) := do
  let sorted ← get_sorted_instructions graph keyOrder
  let st1 := sorted.foldl (pass1Step graph registry)
    (([] : List AccountDependency), 0)
  let st2 := registry.accounts.foldl pushExternalAccount st1
  pure st2.1

end Solify

namespace Solify

instance instDecEqExcept {ε α : Type} [DecidableEq ε] [DecidableEq α] :
    DecidableEq (Except ε α)
  | .ok x, .ok y => decidable_of_iff (x = y) (by simp)
  | .error x, .error y => decidable_of_iff (x = y) (by simp)
  | .ok _, .error _ => isFalse (by simp)
  | .error _, .ok _ => isFalse (by simp)

def c9_graph : DependencyGraph :=
  { nodes := [{ name := "I1", initializes := ["a1"], requires := [] },
              { name := "I2", initializes := ["a2"], requires := [] }],
    edges := [] }

def c9_registry : AccountRegistry :=
  ⟨[{ name := "a1", is_pda := false, is_signer := false, is_mut := true,
      initialized_by := some "I1", seeds := [], used_in := ["I1"], constraints := [] },
    { name := "a2", is_pda := false, is_signer := false, is_mut := true,
      initialized_by := some "I2", seeds := [], used_in := ["I2"], constraints := [] }]⟩

/-- C9: the dequeue order of the zero-in-degree instruction nodes — and with it
every `initialization_order` ordinal — is a function of the `in_degree` map's
iteration order.  The two iteration orders of the same two-key map (both are
orders Rust's randomly seeded `HashMap` may produce on a fixed input) yield
different `generate_account_dependencies` results, so the pipeline's output is
not a function of `(idl, execution_order, program_id)` alone. -/
theorem dequeue_order_depends_on_map_iteration :
    generate_account_dependencies c9_graph c9_registry ["I1", "I2"] =
      .ok [{ account_name := "a1", depends_on := [], is_pda := false,
             is_signer := false, is_mut := true, must_be_initialized := true,
             initialization_order := 0 },
           { account_name := "a2", depends_on := [], is_pda := false,
             is_signer := false, is_mut := true, must_be_initialized := true,
             initialization_order := 1 }] ∧
    generate_account_dependencies c9_graph c9_registry ["I2", "I1"] =
      .ok [{ account_name := "a2", depends_on := [], is_pda := false,
             is_signer := false, is_mut := true, must_be_initialized := true,
             initialization_order := 0 },
           { account_name := "a1", depends_on := [], is_pda := false,
             is_signer := false, is_mut := true, must_be_initialized := true,
             initialization_order := 1 }] ∧
    decide (generate_account_dependencies c9_graph c9_registry ["I1", "I2"] =
        generate_account_dependencies c9_graph c9_registry ["I2", "I1"]) = false := by
  refine ⟨by decide, by decide, by decide⟩

end Solify

namespace Solify

def c4_graph : DependencyGraph :=
  { nodes := [{ name := "I1", initializes := ["a"], requires := [] },
              { name := "I2", initializes := ["b"], requires := ["a"] }],
    edges := [{ «from» := "I1", «to» := "I2",
                dependency_type := .Initialization, account := "a" }] }

theorem kahn_topological_sort_correct_witness :
    Acyclic c4_graph ∧
    (∃ l, get_sorted_instructions c4_graph ["I1", "I2"] = .ok l ∧
        l.Perm (nodeNames c4_graph) ∧
        ∀ e ∈ c4_graph.edges, l.indexOf e.«from» < l.indexOf e.«to») :=
  ⟨⟨["I1", "I2"], by decide⟩,
    (kahn_topological_sort_correct c4_graph ["I1", "I2"]
        ⟨by decide, by decide⟩
        ⟨by decide, fun v => by simp [nodeNames, c4_graph]⟩).1
      ⟨["I1", "I2"], by decide⟩⟩

end Solify

namespace Solify

/-- The names `pass1Step` appends for one instruction name. -/
def pass1Block (graph : DependencyGraph) (registry : AccountRegistry)
    (iname : String) : List String :=
  match graph.nodes.find? (fun n => n.name == iname) with
  | none => []
  | some node => node.initializes.filter (fun an => (get_account registry an).isSome)

theorem pushInit_fold_names (registry : AccountRegistry) (lst : List String) :
    ∀ st : List AccountDependency × Nat,
      ((lst.foldl (pushInitializedAccount registry) st).1).map (fun d => d.account_name) =
        st.1.map (fun d => d.account_name) ++
          lst.filter (fun an => (get_account registry an).isSome) := by
  induction lst with
  | nil => intro st; simp
  | cons an rest ih =>
      intro st
      rw [List.foldl_cons, ih, List.filter_cons]
      cases hga : get_account registry an with
      | none => simp [pushInitializedAccount, hga]
      | some account => simp [pushInitializedAccount, hga]

theorem pass1Step_names (graph : DependencyGraph) (registry : AccountRegistry)
    (st : List AccountDependency × Nat) (iname : String) :
    ((pass1Step graph registry st iname).1).map (fun d => d.account_name) =
      st.1.map (fun d => d.account_name) ++ pass1Block graph registry iname := by
  rw [pass1Step, pass1Block]
  cases h : graph.nodes.find? (fun n => n.name == iname) with
  | none => simp
  | some node => rw [pushInit_fold_names]

theorem pass1_fold_names (graph : DependencyGraph) (registry : AccountRegistry)
    (sorted : List String) :
    ∀ st : List AccountDependency × Nat,
      ((sorted.foldl (pass1Step graph registry) st).1).map (fun d => d.account_name) =
        st.1.map (fun d => d.account_name) ++
          (sorted.map (pass1Block graph registry)).flatten := by
  induction sorted with
  | nil => intro st; simp
  | cons iname rest ih =>
      intro st
      rw [List.foldl_cons, ih, List.map_cons, List.flatten_cons, pass1Step_names,
        List.append_assoc]

theorem pass2_count_mem (accounts : List AccountInfo) :
    ∀ (st : List AccountDependency × Nat) (n : String),
      n ∈ st.1.map (fun d => d.account_name) →
      (((accounts.foldl pushExternalAccount st).1).map (fun d => d.account_name)).count n =
        (st.1.map (fun d => d.account_name)).count n := by
  induction accounts with
  | nil => intro st n _; simp
  | cons a rest ih =>
      intro st n hpres
      rw [List.foldl_cons]
      rw [pushExternalAccount]
      by_cases hcond : (a.initialized_by.isNone &&
          !(st.1.any (fun ad => ad.account_name == a.name))) = true
      · rw [if_pos hcond]
        have hnotin : a.name ∉ st.1.map (fun d => d.account_name) := by
          have h2 := (Bool.and_eq_true _ _).mp hcond
          intro hmem
          obtain ⟨d, hd, hdn⟩ := List.mem_map.mp hmem
          have : st.1.any (fun ad => ad.account_name == a.name) = true :=
            List.any_eq_true.mpr ⟨d, hd, by simp [hdn]⟩
          rw [this] at h2
          simpa using h2.2
        have hne : a.name ≠ n := fun h => hnotin (h ▸ hpres)
        rw [ih _ n (by simp [hpres])]
        simp only [List.map_append, List.map_cons, List.map_nil, List.count_append]
        have : ([a.name] : List String).count n = 0 := by
          rw [List.count_eq_zero]
          simp
          exact fun h => hne h.symm
        omega
      · rw [if_neg hcond]
        exact ih st n hpres

theorem pass2_count_not_mem (accounts : List AccountInfo) :
    ∀ (st : List AccountDependency × Nat) (n : String),
      n ∉ st.1.map (fun d => d.account_name) →
      (((accounts.foldl pushExternalAccount st).1).map (fun d => d.account_name)).count n =
        (if ∃ a ∈ accounts, a.name = n ∧ a.initialized_by = none then 1 else 0) := by
  induction accounts with
  | nil =>
      intro st n hnp
      simp [List.count_eq_zero.mpr hnp]
  | cons a rest ih =>
      intro st n hnp
      rw [List.foldl_cons, pushExternalAccount]
      by_cases hcond : (a.initialized_by.isNone &&
          !(st.1.any (fun ad => ad.account_name == a.name))) = true
      · rw [if_pos hcond]
        have hibnone : a.initialized_by = none := by
          have h2 := (Bool.and_eq_true _ _).mp hcond
          exact Option.isNone_iff_eq_none.mp h2.1
        set newRec : AccountDependency :=
          { account_name := a.name, depends_on := [], is_pda := a.is_pda,
            is_signer := a.is_signer, is_mut := a.is_mut,
            must_be_initialized := false, initialization_order := st.2 } with hnewRec
        by_cases hn : a.name = n
        · subst hn
          have hmem : a.name ∈ (st.1 ++ [newRec]).map (fun d => d.account_name) := by
            simp [hnewRec]
          rw [pass2_count_mem rest _ _ hmem]
          simp only [List.map_append, List.map_cons, List.map_nil, List.count_append]
          rw [List.count_eq_zero.mpr hnp]
          rw [if_pos ⟨a, List.mem_cons_self _ _, rfl, hibnone⟩]
          simp [hnewRec]
        · have hnp' : n ∉ (st.1 ++ [newRec]).map (fun d => d.account_name) := by
            simp only [List.map_append, List.map_cons, List.map_nil, List.mem_append]
            rintro (h | h)
            · exact hnp h
            · rw [List.mem_singleton] at h
              exact hn h.symm
          rw [ih _ n hnp']
          have hiff : (∃ x ∈ rest, x.name = n ∧ x.initialized_by = none) ↔
              (∃ x ∈ a :: rest, x.name = n ∧ x.initialized_by = none) := by
            constructor
            · rintro ⟨x, hx, hxn, hxib⟩
              exact ⟨x, List.mem_cons_of_mem _ hx, hxn, hxib⟩
            · rintro ⟨x, hx, hxn, hxib⟩
              rcases List.mem_cons.mp hx with rfl | hx'
              · exact absurd hxn hn
              · exact ⟨x, hx', hxn, hxib⟩
          exact if_congr hiff rfl rfl
      · rw [if_neg hcond]
        rw [ih st n hnp]
        have hiff : (∃ x ∈ rest, x.name = n ∧ x.initialized_by = none) ↔
            (∃ x ∈ a :: rest, x.name = n ∧ x.initialized_by = none) := by
          constructor
          · rintro ⟨x, hx, hxn, hxib⟩
            exact ⟨x, List.mem_cons_of_mem _ hx, hxn, hxib⟩
          · rintro ⟨x, hx, hxn, hxib⟩
            rcases List.mem_cons.mp hx with heq | hx'
            · exfalso
              cases hany : st.1.any (fun ad => ad.account_name == x.name) with
              | true =>
                  obtain ⟨d, hd, hdn⟩ := List.any_eq_true.mp hany
                  have hdx : d.account_name = x.name := by simpa using hdn
                  exact hnp (List.mem_map.mpr ⟨d, hd, by rw [hdx, hxn]⟩)
              | false =>
                  apply hcond
                  rw [← heq, hxib, hany]
                  rfl
            · exact ⟨x, hx', hxn, hxib⟩
        exact if_congr hiff rfl rfl

end Solify

namespace Solify

theorem filter_flatten {α : Type} (l : List (List α)) (p : α → Bool) :
    (l.map (List.filter p)).flatten = l.flatten.filter p := by
  induction l with
  | nil => simp
  | cons x xs ih =>
      rw [List.map_cons, List.flatten_cons, List.flatten_cons, List.filter_append, ih]

theorem count_filter_eval (l : List String) (p : String → Bool) (n : String) :
    (l.filter p).count n = if p n then l.count n else 0 := by
  rw [List.count_eq_countP, List.countP_filter]
  by_cases hp : p n
  · rw [if_pos hp, List.count_eq_countP]
    apply List.countP_congr
    intro x _
    by_cases hx : x = n
    · subst hx
      simp [hp]
    · have : (x == n) = false := beq_eq_false_iff_ne.mpr hx
      simp [this]
  · rw [if_neg hp]
    rw [List.countP_eq_zero]
    intro x _
    by_cases hx : x = n
    · subst hx
      simp [hp]
    · have : (x == n) = false := beq_eq_false_iff_ne.mpr hx
      simp [this]

theorem find?_nodes_self (g : DependencyGraph) (hnd : (nodeNames g).Nodup) :
    ∀ nd ∈ g.nodes, g.nodes.find? (fun n => n.name == nd.name) = some nd := by
  have h : ∀ (nodes : List InstructionNode),
      (nodes.map (fun n => n.name)).Nodup →
      ∀ nd ∈ nodes, nodes.find? (fun n => n.name == nd.name) = some nd := by
    intro nodes
    induction nodes with
    | nil => intro _ nd hnd'; exact absurd hnd' (List.not_mem_nil nd)
    | cons x xs ih =>
        intro hnodup nd hmem
        rcases List.mem_cons.mp hmem with rfl | hmem'
        · rw [List.find?_cons_of_pos _ (by simp)]
        · have hx : x.name ≠ nd.name := by
            intro heq
            have : x.name ∈ xs.map (fun n => n.name) :=
              heq ▸ List.mem_map.mpr ⟨nd, hmem', rfl⟩
            exact (List.nodup_cons.mp (by simpa using hnodup)).1 this
          rw [List.find?_cons_of_neg _ (by simp [hx])]
          exact ih (List.nodup_cons.mp (by simpa using hnodup)).2 nd hmem'
  exact h g.nodes (by simpa [nodeNames] using hnd)

theorem get_account_isSome_iff (registry : AccountRegistry) (n : String) :
    (get_account registry n).isSome = true ↔
      n ∈ registry.accounts.map (fun a => a.name) := by
  rw [get_account, List.find?_isSome]
  constructor
  · rintro ⟨a, ha, hb⟩
    exact List.mem_map.mpr ⟨a, ha, by simpa using hb⟩
  · intro h
    obtain ⟨a, ha, hb⟩ := List.mem_map.mp h
    exact ⟨a, ha, by simp [hb]⟩

theorem get_sorted_ok_perm (g : DependencyGraph) (keyOrder : List String)
    (l : List String) (hwf : WellFormedGraph g) (hko : KeyOrderOk g keyOrder)
    (hok : get_sorted_instructions g keyOrder = .ok l) :
    l.Perm (nodeNames g) := by
  have hinit := kahn_initial_inv g keyOrder hko
  have hnames_len : (nodeNames g).length = g.nodes.length := by simp [nodeNames]
  obtain ⟨m', l0, hrun, inv'⟩ :=
    kahnLoop_run g hwf (g.nodes.length + 1) _ _ [] hinit (by omega)
  have hres : get_sorted_instructions g keyOrder =
      if l0.length ≠ g.nodes.length then .error .CircularDependency else .ok l0 := by
    simp only [get_sorted_instructions]
    rw [hrun]
  rw [hres] at hok
  by_cases hlen : l0.length = g.nodes.length
  · rw [if_neg (by omega)] at hok
    injection hok with h
    subst h
    have hlnd : l0.Nodup := by
      have h := inv'.nd
      simpa using h
    have hsubperm : List.Subperm l0 (nodeNames g) :=
      List.subperm_of_subset hlnd (fun v hv => inv'.smem v hv)
    exact hsubperm.perm_of_length_le (by omega)
  · rw [if_pos (by omega)] at hok
    exact absurd hok (by simp)

end Solify

namespace Solify

/-- C5 (amended): `generate_account_dependencies` emits exactly one
`AccountDependency` per registry record — provided every registry record's name
occurs at most once across the graph nodes' `initializes` lists, and exactly
once when the record carries an initializer.  (The unamended claim fails when a
record's initializing instruction is not a node of the graph: the record is
then silently omitted.) -/
theorem account_dependencies_one_per_registry_record
    (graph : DependencyGraph) (registry : AccountRegistry) (keyOrder : List String)
    (deps : List AccountDependency)
    (hwf : WellFormedGraph graph) (hko : KeyOrderOk graph keyOrder)
    (hreg : (registry.accounts.map (fun a => a.name)).Nodup)
    (hcnt : ∀ a ∈ registry.accounts,
      (graph.nodes.map (fun n => n.initializes)).flatten.count a.name ≤ 1 ∧
      (a.initialized_by.isSome = true →
        (graph.nodes.map (fun n => n.initializes)).flatten.count a.name = 1))
    (hok : generate_account_dependencies graph registry keyOrder = .ok deps) :
    (deps.map (fun d => d.account_name)).Perm
      (registry.accounts.map (fun a => a.name)) := by
  cases hgs : get_sorted_instructions graph keyOrder with
  | error e =>
      exfalso
      simp [generate_account_dependencies, hgs, Bind.bind, Except.bind] at hok
  | ok sorted =>
      have hdeps : deps = (registry.accounts.foldl pushExternalAccount
          (sorted.foldl (pass1Step graph registry)
            (([] : List AccountDependency), 0))).1 := by
        simp [generate_account_dependencies, hgs, Bind.bind, Except.bind,
          Pure.pure, Except.pure] at hok
        exact hok.symm
      have hperm_sorted : sorted.Perm (nodeNames graph) :=
        get_sorted_ok_perm graph keyOrder sorted hwf hko hgs
      rw [List.perm_iff_count]
      intro n
      -- the names pushed by the first pass
      have hpass1 : ((sorted.foldl (pass1Step graph registry)
            (([] : List AccountDependency), 0)).1).map (fun d => d.account_name) =
          (sorted.map (pass1Block graph registry)).flatten := by
        have h := pass1_fold_names graph registry sorted (([], 0))
        simpa using h
      -- its count of `n`, via permutation transport to the graph's node list
      have hblock : ∀ nd ∈ graph.nodes,
          pass1Block graph registry nd.name =
            nd.initializes.filter (fun an => (get_account registry an).isSome) := by
        intro nd hnd
        rw [pass1Block, find?_nodes_self graph hwf.1 nd hnd]
      have hcount1 : ((sorted.map (pass1Block graph registry)).flatten).count n =
          ((graph.nodes.map
            (fun nd => nd.initializes.filter
              (fun an => (get_account registry an).isSome))).flatten).count n := by
        rw [List.count_flatten, List.count_flatten, List.map_map, List.map_map]
        apply List.Perm.sum_eq
        have hp := hperm_sorted.map (List.count n ∘ pass1Block graph registry)
        refine hp.trans ?_
        rw [nodeNames, List.map_map]
        apply List.Perm.of_eq
        apply List.map_congr_left
        intro nd hnd
        simp only [Function.comp]
        rw [hblock nd hnd]
      have hcount2 : ((graph.nodes.map
            (fun nd => nd.initializes.filter
              (fun an => (get_account registry an).isSome))).flatten).count n =
          if (get_account registry n).isSome
          then ((graph.nodes.map (fun nd => nd.initializes)).flatten).count n
          else 0 := by
        have hff := filter_flatten (graph.nodes.map (fun nd => nd.initializes))
          (fun an => (get_account registry an).isSome)
        rw [show (graph.nodes.map
            (fun nd => nd.initializes.filter
              (fun an => (get_account registry an).isSome))) =
            ((graph.nodes.map (fun nd => nd.initializes)).map
              (List.filter (fun an => (get_account registry an).isSome))) by
          rw [List.map_map]; rfl]
        rw [hff, count_filter_eval]
      rw [hdeps]
      by_cases hnreg : n ∈ registry.accounts.map (fun a => a.name)
      · -- n names a registry record: the output contains it exactly once
        obtain ⟨a, hamem, haname⟩ := List.mem_map.mp hnreg
        have hpres : (get_account registry n).isSome = true :=
          (get_account_isSome_iff registry n).mpr hnreg
        have hregcount : (registry.accounts.map (fun a => a.name)).count n = 1 :=
          List.count_eq_one_of_mem hreg hnreg
        rw [hregcount]
        have hNI := hcnt a hamem
        rw [haname] at hNI
        cases hni : ((graph.nodes.map (fun n => n.initializes)).flatten).count n with
        | zero =>
            -- not emitted in pass 1; the external pass appends it once
            have hc1 : List.count n (((sorted.foldl (pass1Step graph registry)
                (([] : List AccountDependency), 0)).1).map
                  (fun d => d.account_name)) = 0 := by
              rw [hpass1, hcount1, hcount2, if_pos hpres, hni]
            have hnotmem : n ∉ ((sorted.foldl (pass1Step graph registry)
                (([] : List AccountDependency), 0)).1).map
                  (fun d => d.account_name) := List.count_eq_zero.mp hc1
            rw [pass2_count_not_mem _ _ _ hnotmem]
            have hibnone : a.initialized_by = none := by
              cases hib : a.initialized_by with
              | none => rfl
              | some i =>
                  exfalso
                  have := hNI.2 (by rw [hib]; rfl)
                  omega
            rw [if_pos ⟨a, hamem, haname, hibnone⟩]
        | succ k =>
            -- emitted in pass 1 (exactly once); the external pass skips it
            have hk0 : k = 0 := by
              have := hNI.1
              omega
            subst hk0
            have hc1 : List.count n (((sorted.foldl (pass1Step graph registry)
                (([] : List AccountDependency), 0)).1).map
                  (fun d => d.account_name)) = 1 := by
              rw [hpass1, hcount1, hcount2, if_pos hpres, hni]
            have hmem : n ∈ ((sorted.foldl (pass1Step graph registry)
                (([] : List AccountDependency), 0)).1).map
                  (fun d => d.account_name) := by
              rw [← List.count_pos_iff, hc1]
              omega
            rw [pass2_count_mem _ _ _ hmem, hc1]
      · -- n is not a registry name: it never appears in the output
        have hpres : (get_account registry n).isSome = false := by
          cases h : (get_account registry n).isSome
          · rfl
          · exact absurd ((get_account_isSome_iff registry n).mp h) hnreg
        have hc1 : List.count n (((sorted.foldl (pass1Step graph registry)
            (([] : List AccountDependency), 0)).1).map
              (fun d => d.account_name)) = 0 := by
          rw [hpass1, hcount1, hcount2, hpres]
          simp
        have hnotmem : n ∉ ((sorted.foldl (pass1Step graph registry)
            (([] : List AccountDependency), 0)).1).map
              (fun d => d.account_name) := List.count_eq_zero.mp hc1
        rw [pass2_count_not_mem _ _ _ hnotmem]
        rw [List.count_eq_zero.mpr hnreg]
        rw [if_neg]
        rintro ⟨x, hx, hxn, _⟩
        exact hnreg (List.mem_map.mpr ⟨x, hx, hxn⟩)

end Solify

namespace Solify

def c5_graph : DependencyGraph :=
  { nodes := [{ name := "foo", initializes := [], requires := [] }], edges := [] }

def c5_registry : AccountRegistry :=
  ⟨[{ name := "x", is_pda := false, is_signer := false, is_mut := true,
      initialized_by := some "create_x", seeds := [], used_in := ["create_x"],
      constraints := [] }]⟩

/-- C5 counterexample: the registry holds one record (`x`, initialized by
`create_x`), the graph's single node is `foo`, and
`generate_account_dependencies` succeeds — returning an empty vector: the
record whose initializing instruction is not a graph node is omitted, so the
output does not contain one entry per registry record. -/
theorem registry_record_omitted_when_initializer_absent :
    generate_account_dependencies c5_graph c5_registry ["foo"] = .ok [] ∧
    c5_registry.accounts.map (fun a => a.name) = ["x"] :=
  ⟨by decide, by decide⟩

def c5w_graph : DependencyGraph :=
  { nodes := [{ name := "I1", initializes := ["a"], requires := [] }], edges := [] }

def c5w_registry : AccountRegistry :=
  ⟨[{ name := "a", is_pda := false, is_signer := false, is_mut := true,
      initialized_by := some "I1", seeds := [], used_in := ["I1"], constraints := [] },
    { name := "s", is_pda := false, is_signer := true, is_mut := true,
      initialized_by := none, seeds := [], used_in := ["I1"], constraints := [] }]⟩

def c5w_deps : List AccountDependency :=
  [{ account_name := "a", depends_on := [], is_pda := false, is_signer := false,
     is_mut := true, must_be_initialized := true, initialization_order := 0 },
   { account_name := "s", depends_on := [], is_pda := false, is_signer := true,
     is_mut := true, must_be_initialized := false, initialization_order := 1 }]

theorem account_dependencies_one_per_registry_record_witness :
    (c5w_deps.map (fun d => d.account_name)).Perm
      (c5w_registry.accounts.map (fun a => a.name)) :=
  account_dependencies_one_per_registry_record c5w_graph c5w_registry ["I1"] c5w_deps
    ⟨by decide, by decide⟩
    ⟨by decide, fun v => by simp [nodeNames, c5w_graph]⟩
    (by decide) (by decide) (by decide)

end Solify

namespace Solify

/-! ## Generic postorder DFS
Both `PdaDetector::sort_pdas_by_dependencies`/`visit_pda`
(`analyzer/src/pda_detector.rs` lines 65-124) and
`SetupGenerator::sort_setup_requirements`/`visit_requirement`
(`analyzer_onchain/src/setup_generator.rs` lines 65-118) run the same
postorder DFS over element indices; they differ only in how a dependency name
is resolved to an index, which enters here as the neighbour function `nbr`.
The recursion is fuelled; `n + 1` units are enough for any `nbr` whose values
are below `n`, which holds at both call sites. -/

/-- The `for dep in deps` loop body, parameterized by the recursive visit at
the next-smaller fuel so that the whole DFS is structurally recursive. -/
def dfsChildrenGo (visit : Nat → List Nat × List Nat → List Nat × List Nat) :
    List Nat → List Nat × List Nat → List Nat × List Nat
  | [], st => st
  | j :: js, st =>
      dfsChildrenGo visit js (if st.1.contains j then st else visit j st)

def dfsVisit (nbr : Nat → List Nat) :
    Nat → Nat → List Nat × List Nat → List Nat × List Nat
  | 0, _, st => st
  | fuel + 1, i, st =>
      let st1 := dfsChildrenGo (dfsVisit nbr fuel) (nbr i) (i :: st.1, st.2)
      (st1.1, st1.2 ++ [i])

/-- The outer `for i in 0..len` loop shared by both sorts. -/
def dfsOuter (nbr : Nat → List Nat) (n : Nat) : List Nat :=
  ((List.range n).foldl
    (fun st i => if st.1.contains i then st else dfsVisit nbr (n + 1) i st)
    ([], [])).2

/-- How many of the indices below `n` are already marked visited. -/
def visitedCount (n : Nat) (visited : List Nat) : Nat :=
  (List.range n).countP (fun k => visited.contains k)

theorem countP_or_disjoint {α : Type} (l : List α) (p q : α → Bool)
    (h : ∀ x ∈ l, ¬(p x = true ∧ q x = true)) :
    l.countP (fun x => p x || q x) = l.countP p + l.countP q := by
  induction l with
  | nil => simp
  | cons y ys ih =>
      have hy := h y (by simp)
      have ihy := ih (fun x hx => h x (by simp [hx]))
      rw [List.countP_cons, List.countP_cons, List.countP_cons, ihy]
      cases hp : p y <;> cases hq : q y <;> simp_all <;> omega

theorem visitedCount_le (n : Nat) (visited : List Nat) :
    visitedCount n visited ≤ n := by
  have h := List.countP_le_length (l := List.range n)
    (p := fun k => visited.contains k)
  rw [List.length_range] at h
  exact h

theorem visitedCount_mono (n : Nat) (v1 v2 : List Nat)
    (h : ∀ x, v1.contains x = true → v2.contains x = true) :
    visitedCount n v1 ≤ visitedCount n v2 :=
  List.countP_mono_left (fun x _ hx => h x hx)

theorem visitedCount_cons (n : Nat) (visited : List Nat) (i : Nat)
    (hi : i < n) (hnv : visited.contains i = false) :
    visitedCount n (i :: visited) = visitedCount n visited + 1 := by
  rw [visitedCount, visitedCount]
  have hcongr : ∀ k ∈ List.range n,
      ((i :: visited).contains k) = ((k == i) || visited.contains k) := by
    intro k _
    by_cases hk : k = i
    · subst hk
      simp [List.contains, List.elem_cons]
    · have hb : (k == i) = false := by simpa using hk
      simp [List.contains, List.elem_cons, hb, hk]
  rw [List.countP_congr (fun k hk => by rw [hcongr k hk])]
  rw [countP_or_disjoint]
  · have h1 : (List.range n).countP (fun k => k == i) = 1 := by
      have h2 : (List.range n).count i = 1 :=
        List.count_eq_one_of_mem (List.nodup_range n) (List.mem_range.mpr hi)
      simpa [List.count_eq_countP] using h2
    have heta : (List.range n).countP visited.contains =
        (List.range n).countP (fun k => visited.contains k) := rfl
    omega
  · intro k _
    rintro ⟨hk1, hk2⟩
    have : k = i := by simpa using hk1
    subst this
    rw [hnv] at hk2
    exact absurd hk2 (by simp)

end Solify

namespace Solify

theorem contains_iff_mem (l : List Nat) (x : Nat) : l.contains x = true ↔ x ∈ l := by
  simp

theorem dfsVisit_spec (nbr : Nat → List Nat) (n : Nat)
    (hnbr : ∀ i j, j ∈ nbr i → j < n) :
    ∀ (fuel i : Nat) (visited sorted : List Nat),
      i < n → i ∉ visited →
      n + 1 ≤ fuel + visitedCount n visited →
      ∃ fresh visited',
        dfsVisit nbr fuel i (visited, sorted) = (visited', sorted ++ fresh) ∧
        fresh.Nodup ∧ i ∈ fresh ∧
        (∀ x ∈ fresh, x < n ∧ x ∉ visited) ∧
        (∀ x, x ∈ visited' ↔ (x ∈ fresh ∨ x ∈ visited)) := by
  intro fuel
  induction fuel with
  | zero =>
      intro i visited sorted hi hnv hfuel
      exfalso
      have := visitedCount_le n visited
      omega
  | succ fuel ih =>
      intro i visited sorted hi hnv hfuel
      have hchild : ∀ (l : List Nat) (v s : List Nat), (∀ j ∈ l, j < n) →
          n + 1 ≤ fuel + visitedCount n v →
          ∃ fresh v',
            dfsChildrenGo (dfsVisit nbr fuel) l (v, s) = (v', s ++ fresh) ∧
            fresh.Nodup ∧ (∀ x ∈ fresh, x < n ∧ x ∉ v) ∧
            (∀ x, x ∈ v' ↔ (x ∈ fresh ∨ x ∈ v)) := by
        intro l
        induction l with
        | nil =>
            intro v s _ _
            exact ⟨[], v, by simp [dfsChildrenGo], List.nodup_nil, by simp, by simp⟩
        | cons j js ihl =>
            intro v s hjs hfuel1
            rw [dfsChildrenGo]
            by_cases hjv : j ∈ v
            · have hb : v.contains j = true := (contains_iff_mem v j).mpr hjv
              simp only [hb, if_true]
              exact ihl v s (fun x hx => hjs x (List.mem_cons_of_mem _ hx)) hfuel1
            · have hb : v.contains j = false := by
                cases h : v.contains j
                · rfl
                · exact absurd ((contains_iff_mem v j).mp h) hjv
              simp only [hb, Bool.false_eq_true, if_false]
              obtain ⟨fj, vj, hrunj, hndj, hjin, hfreshj, hiffj⟩ :=
                ih j v s (hjs j (List.mem_cons_self _ _)) hjv hfuel1
              rw [hrunj]
              have hsub : ∀ x, v.contains x = true → vj.contains x = true := by
                intro x hx
                exact (contains_iff_mem vj x).mpr
                  ((hiffj x).mpr (Or.inr ((contains_iff_mem v x).mp hx)))
              have hbound2 : n + 1 ≤ fuel + visitedCount n vj :=
                le_trans hfuel1 (by
                  have := visitedCount_mono n v vj hsub
                  omega)
              obtain ⟨frest, v', hrunr, hndr, hfreshr, hiffr⟩ :=
                ihl vj (s ++ fj) (fun x hx => hjs x (List.mem_cons_of_mem _ hx)) hbound2
              refine ⟨fj ++ frest, v', ?_, ?_, ?_, ?_⟩
              · rw [hrunr, List.append_assoc]
              · rw [List.nodup_append]
                refine ⟨hndj, hndr, ?_⟩
                intro x hxj hxr
                exact (hfreshr x hxr).2 ((hiffj x).mpr (Or.inl hxj))
              · intro x hx
                rcases List.mem_append.mp hx with h | h
                · exact hfreshj x h
                · refine ⟨(hfreshr x h).1, ?_⟩
                  intro hxv
                  exact (hfreshr x h).2 ((hiffj x).mpr (Or.inr hxv))
              · intro x
                rw [hiffr x, hiffj x, List.mem_append]
                tauto
      rw [dfsVisit]
      have hvc : visitedCount n (i :: visited) = visitedCount n visited + 1 := by
        apply visitedCount_cons n visited i hi
        cases h : visited.contains i
        · rfl
        · exact absurd ((contains_iff_mem visited i).mp h) hnv
      obtain ⟨fch, v', hrun, hnd, hfresh, hiff⟩ :=
        hchild (nbr i) (i :: visited) sorted (fun j hj => hnbr i j hj) (by omega)
      refine ⟨fch ++ [i], v', ?_, ?_, ?_, ?_, ?_⟩
      · rw [hrun, List.append_assoc]
      · rw [List.nodup_append]
        refine ⟨hnd, List.nodup_singleton i, ?_⟩
        intro x hx hxi
        rw [List.mem_singleton] at hxi
        subst hxi
        exact (hfresh x hx).2 (List.mem_cons_self _ _)
      · exact List.mem_append.mpr (Or.inr (List.mem_singleton_self i))
      · intro x hx
        rcases List.mem_append.mp hx with h | h
        · refine ⟨(hfresh x h).1, ?_⟩
          intro hxv
          exact (hfresh x h).2 (List.mem_cons_of_mem _ hxv)
        · rw [List.mem_singleton] at h
          subst h
          exact ⟨hi, hnv⟩
      · intro x
        rw [hiff x, List.mem_cons, List.mem_append, List.mem_singleton]
        tauto

end Solify

namespace Solify

theorem dfsOuter_fold_spec (nbr : Nat → List Nat) (n : Nat)
    (hnbr : ∀ i j, j ∈ nbr i → j < n) :
    ∀ (todo visited sorted : List Nat),
      (∀ j ∈ todo, j < n) →
      (∀ x, x ∈ visited ↔ x ∈ sorted) →
      sorted.Nodup → (∀ x ∈ sorted, x < n) →
      ∃ fresh visited',
        todo.foldl
          (fun st i => if st.1.contains i then st else dfsVisit nbr (n + 1) i st)
          (visited, sorted) = (visited', sorted ++ fresh) ∧
        (∀ x, x ∈ visited' ↔ x ∈ sorted ++ fresh) ∧
        (sorted ++ fresh).Nodup ∧
        (∀ x ∈ fresh, x < n) ∧
        (∀ j ∈ todo, j ∈ sorted ++ fresh) := by
  intro todo
  induction todo with
  | nil =>
      intro visited sorted _ hiff hnd hlt
      exact ⟨[], visited, by simp, by simpa using hiff, by simpa using hnd,
        by simp, by simp⟩
  | cons i todo ihl =>
      intro visited sorted htodo hiff hnd hlt
      rw [List.foldl_cons]
      by_cases hiv : i ∈ visited
      · have hb : visited.contains i = true := (contains_iff_mem visited i).mpr hiv
        simp only [hb, if_true]
        obtain ⟨fresh, v', hrun, hiff', hnd', hlt', hall'⟩ :=
          ihl visited sorted (fun j hj => htodo j (List.mem_cons_of_mem _ hj))
            hiff hnd hlt
        refine ⟨fresh, v', hrun, hiff', hnd', hlt', ?_⟩
        intro j hj
        rcases List.mem_cons.mp hj with rfl | hj'
        · exact List.mem_append.mpr (Or.inl ((hiff j).mp hiv))
        · exact hall' j hj'
      · have hb : visited.contains i = false := by
          cases h : visited.contains i
          · rfl
          · exact absurd ((contains_iff_mem visited i).mp h) hiv
        simp only [hb, Bool.false_eq_true, if_false]
        obtain ⟨fi, vi, hruni, hndi, hiin, hfreshi, hiffi⟩ :=
          dfsVisit_spec nbr n hnbr (n + 1) i visited sorted
            (htodo i (List.mem_cons_self _ _)) hiv (by omega)
        rw [hruni]
        have hiff2 : ∀ x, x ∈ vi ↔ x ∈ sorted ++ fi := by
          intro x
          rw [hiffi x, List.mem_append, hiff x]
          tauto
        have hnd2 : (sorted ++ fi).Nodup := by
          rw [List.nodup_append]
          refine ⟨hnd, hndi, ?_⟩
          intro x hxs hxf
          exact (hfreshi x hxf).2 ((hiff x).mpr hxs)
        have hlt2 : ∀ x ∈ sorted ++ fi, x < n := by
          intro x hx
          rcases List.mem_append.mp hx with h | h
          · exact hlt x h
          · exact (hfreshi x h).1
        obtain ⟨frest, v', hrunr, hiffr, hndr, hltr, hallr⟩ :=
          ihl vi (sorted ++ fi) (fun j hj => htodo j (List.mem_cons_of_mem _ hj))
            hiff2 hnd2 hlt2
        refine ⟨fi ++ frest, v', ?_, ?_, ?_, ?_, ?_⟩
        · rw [hrunr, List.append_assoc]
        · intro x
          rw [hiffr x]
          simp [List.mem_append]
        · rw [← List.append_assoc]
          exact hndr
        · intro x hx
          rcases List.mem_append.mp hx with h | h
          · exact (hfreshi x h).1
          · exact hltr x h
        · intro j hj
          rcases List.mem_cons.mp hj with rfl | hj'
          · rw [← List.append_assoc]
            exact List.mem_append.mpr (Or.inl (List.mem_append.mpr (Or.inr hiin)))
          · rw [← List.append_assoc]
            exact hallr j hj'

theorem dfsOuter_perm (nbr : Nat → List Nat) (n : Nat)
    (hnbr : ∀ i j, j ∈ nbr i → j < n) :
    (dfsOuter nbr n).Perm (List.range n) := by
  obtain ⟨fresh, v', hrun, hiff, hnd, hlt, hall⟩ :=
    dfsOuter_fold_spec nbr n hnbr (List.range n) [] []
      (fun j hj => List.mem_range.mp hj) (by simp) List.nodup_nil (by simp)
  rw [dfsOuter, hrun]
  simp only [List.nil_append] at hnd hall ⊢
  have hsub1 : List.Subperm fresh (List.range n) :=
    List.subperm_of_subset hnd (fun x hx => List.mem_range.mpr (hlt x hx))
  have hsub2 : List.Subperm (List.range n) fresh :=
    List.subperm_of_subset (List.nodup_range n) (fun x hx => hall x hx)
  exact hsub1.perm_of_length_le hsub2.length_le

theorem dfs_nil_block (nbr : Nat → List Nat) (n : Nat) :
    ∀ (todo visited sorted : List Nat),
      (∀ i ∈ todo, nbr i = []) →
      (∀ i ∈ todo, i ∉ visited) →
      todo.Nodup →
      (∀ x, x ∈ visited ↔ x ∈ sorted) →
      ∃ v', todo.foldl
          (fun st i => if st.1.contains i then st else dfsVisit nbr (n + 1) i st)
          (visited, sorted) = (v', sorted ++ todo) ∧
        (∀ x, x ∈ v' ↔ x ∈ sorted ++ todo) := by
  intro todo
  induction todo with
  | nil =>
      intro visited sorted _ _ _ hiff
      exact ⟨visited, by simp, by simpa using hiff⟩
  | cons i todo ihl =>
      intro visited sorted hnil hnv hndt hiff
      rw [List.foldl_cons]
      have hiv : i ∉ visited := hnv i (List.mem_cons_self _ _)
      have hb : visited.contains i = false := by
        cases h : visited.contains i
        · rfl
        · exact absurd ((contains_iff_mem visited i).mp h) hiv
      simp only [hb, Bool.false_eq_true, if_false]
      have hstep : dfsVisit nbr (n + 1) i (visited, sorted) =
          (i :: visited, sorted ++ [i]) := by
        rw [dfsVisit]
        rw [hnil i (List.mem_cons_self _ _)]
        rw [dfsChildrenGo]
      rw [hstep]
      have hiff2 : ∀ x, x ∈ i :: visited ↔ x ∈ sorted ++ [i] := by
        intro x
        rw [List.mem_cons, List.mem_append, List.mem_singleton, hiff x]
        tauto
      obtain ⟨v', hrun, hiff'⟩ := ihl (i :: visited) (sorted ++ [i])
        (fun j hj => hnil j (List.mem_cons_of_mem _ hj))
        (fun j hj => by
          intro hmem
          rcases List.mem_cons.mp hmem with rfl | hmem'
          · exact (List.nodup_cons.mp hndt).1 hj
          · exact hnv j (List.mem_cons_of_mem _ hj) hmem')
        (List.nodup_cons.mp hndt).2 hiff2
      refine ⟨v', ?_, ?_⟩
      · rw [hrun, List.append_assoc]
        rfl
      · intro x
        rw [hiff' x]
        simp [List.mem_append]

end Solify

namespace Solify

theorem dfsOuter_prefix (nbr : Nat → List Nat) (n k : Nat)
    (hnbr : ∀ i j, j ∈ nbr i → j < n) (hk : k ≤ n)
    (hnil : ∀ i, i < k → nbr i = []) :
    ∃ rest, dfsOuter nbr n = List.range k ++ rest ∧
      (List.range k ++ rest).Nodup ∧ ∀ x ∈ rest, k ≤ x ∧ x < n := by
  rw [dfsOuter]
  have hsplit : List.range n = List.range k ++ (List.range (n - k)).map (k + ·) := by
    conv_lhs => rw [show n = k + (n - k) by omega]
    rw [List.range_add]
  rw [hsplit, List.foldl_append]
  obtain ⟨vk, hrunk, hiffk⟩ := dfs_nil_block nbr n (List.range k) [] []
    (fun i hi => hnil i (List.mem_range.mp hi))
    (fun i _ => List.not_mem_nil i)
    (List.nodup_range k) (by simp)
  rw [hrunk]
  simp only [List.nil_append] at hiffk ⊢
  obtain ⟨fresh, v', hrun2, hiff2, hnd2, hlt2, hall2⟩ :=
    dfsOuter_fold_spec nbr n hnbr ((List.range (n - k)).map (k + ·)) vk (List.range k)
      (by
        intro j hj
        obtain ⟨m, hm, rfl⟩ := List.mem_map.mp hj
        have := List.mem_range.mp hm
        omega)
      hiffk (List.nodup_range k)
      (fun x hx => lt_of_lt_of_le (List.mem_range.mp hx) hk)
  rw [hrun2]
  refine ⟨fresh, rfl, hnd2, ?_⟩
  intro x hx
  refine ⟨?_, hlt2 x hx⟩
  by_contra hlt
  push_neg at hlt
  have hxk : x ∈ List.range k := List.mem_range.mpr hlt
  have hdisj := (List.nodup_append.mp hnd2).2.2
  exact hdisj hxk hx

end Solify

namespace Solify

/-! ## PDA detector (`analyzer/src/pda_detector.rs`) -/

/-- Output seed component (`common/src/types.rs` `SeedComponent`; its
`SeedType` enum mirrors the analyzer-internal one variant for variant, so the
embedding reuses `SeedType`). -/
structure SeedComponent where
  seed_type : SeedType
  value : String
deriving Repr, DecidableEq

structure PdaInit where
  account_name : String
  seeds : List SeedComponent
  program_id : String
  space : Option Nat
deriving Repr, DecidableEq

instance : Inhabited PdaInit := ⟨⟨"", [], "", none⟩⟩

/-- `PdaDetector::estimate_account_space` (lines 52-63). -/
def estimate_account_space (account : AccountInfo) : Nat :=
  let base_space := 8
  let name := lowercase account.name
  if strContains name "user" || strContains name "account" then base_space + 128
  else if strContains name "vault" then base_space + 256
  else if strContains name "pool" then base_space + 512
  else if strContains name "market" then base_space + 1024
  else base_space + 64

/-- `PdaDetector::create_pda_init` (lines 24-50), infallible in the source. -/
def create_pda_init (account : AccountInfo) (program_id : String) : PdaInit :=
  { account_name := account.name,
    seeds := account.seeds.map
      (fun seed_info => { seed_type := seed_info.seed_type, value := seed_info.value }),
    program_id := program_id,
    space := some (estimate_account_space account) }

/-- The per-PDA dependency lists of `sort_pdas_by_dependencies` (lines 66-80):
the AccountKey seed values of the registry record found under the PDA's
account name.  The lookup cannot fail because every `account_name` comes from
the registry itself (the Rust `ok_or`/`unwrap` never fires); the `none` branch
is dead code kept for totality. -/
def pdaDepsList (registry : AccountRegistry) (pda_inits : List PdaInit) :
    List (List String) :=
  pda_inits.map (fun p =>
    match get_account registry p.account_name with
    | some account =>
        (account.seeds.filter (fun s => s.seed_type == SeedType.AccountKey)).map
          (fun s => s.value)
    | none => [])

/-- Dependency resolution of `visit_pda` (lines 112-119): a dependency value is
matched against the first PDA whose seed-value list CONTAINS the value — not
against the PDA whose account name equals it. -/
def pdaNbr (depsList : List (List String)) (i : Nat) : List Nat :=
  (depsList.getD i []).filterMap
    (fun dep_name => depsList.findIdx? (fun d => d.contains dep_name))

/-- `PdaDetector::sort_pdas_by_dependencies` (lines 65-100). -/
def sort_pdas_by_dependencies (registry : AccountRegistry)
    (pda_inits : List PdaInit) : List PdaInit :=
  let depsList := pdaDepsList registry pda_inits
  let sorted_indices := dfsOuter (pdaNbr depsList) pda_inits.length
  sorted_indices.map (fun idx => pda_inits.getD idx default)

/-- `PdaDetector::detect_pdas` (lines 8-22). -/
def detect_pdas (registry : AccountRegistry) (program_id : String) : List PdaInit :=
  sort_pdas_by_dependencies registry
    ((registry.accounts.filter (fun a => a.is_pda)).map
      (fun a => create_pda_init a program_id))

theorem findIdx?_lt_length_from {α : Type} (p : α → Bool) :
    ∀ (l : List α) (i j : Nat), List.findIdx? p l i = some j → j < i + l.length := by
  intro l
  induction l with
  | nil => intro i j h; simp [List.findIdx?] at h
  | cons x xs ih =>
      intro i j h
      rw [List.findIdx?_cons] at h
      by_cases hp : p x
      · rw [if_pos hp] at h
        injection h with h
        rw [← h, List.length_cons]
        omega
      · rw [if_neg hp] at h
        have := ih (i + 1) j h
        rw [List.length_cons]
        omega

theorem findIdx?_lt_length {α : Type} (p : α → Bool) (l : List α) (j : Nat)
    (h : l.findIdx? p = some j) : j < l.length := by
  have := findIdx?_lt_length_from p l 0 j h
  omega

theorem map_getD_range {α : Type} (d : α) :
    ∀ L : List α, (List.range L.length).map (fun i => L.getD i d) = L := by
  intro L
  induction L with
  | nil => simp
  | cons x xs ih =>
      rw [List.length_cons, List.range_succ_eq_map, List.map_cons, List.map_map]
      have h2 : ((fun i => (x :: xs).getD i d) ∘ Nat.succ) = fun i => xs.getD i d := by
        funext i
        simp [List.getD]
      rw [h2, ih]
      simp [List.getD]

/-- C3 (amended): `detect_pdas` returns a permutation of one `PdaInit` per
`is_pda` registry record; the emission order is produced by the
seed-value-coincidence DFS of `visit_pda` (a dependency value is resolved to
the first PDA whose own seed-value list contains it, not to the PDA named by
it), so a PDA may precede an account referenced by its AccountKey seeds. -/
theorem detect_pdas_perm_of_registry (registry : AccountRegistry) (program_id : String) :
    (detect_pdas registry program_id).Perm
      ((registry.accounts.filter (fun a => a.is_pda)).map
        (fun a => create_pda_init a program_id)) := by
  rw [detect_pdas, sort_pdas_by_dependencies]
  set pda_inits := (registry.accounts.filter (fun a => a.is_pda)).map
    (fun a => create_pda_init a program_id) with hpda
  set depsList := pdaDepsList registry pda_inits with hdeps
  have hnbr : ∀ i j, j ∈ pdaNbr depsList i → j < pda_inits.length := by
    intro i j hj
    rw [pdaNbr] at hj
    obtain ⟨dep, _, hfind⟩ := List.mem_filterMap.mp hj
    have := findIdx?_lt_length _ depsList j hfind
    rw [hdeps, pdaDepsList, List.length_map] at this
    exact this
  have hperm := dfsOuter_perm (pdaNbr depsList) pda_inits.length hnbr
  have hmap := hperm.map (fun idx => pda_inits.getD idx default)
  rw [map_getD_range default pda_inits] at hmap
  exact hmap

def c3_b : AccountInfo :=
  { name := "b", is_pda := true, is_signer := false, is_mut := true,
    initialized_by := some "create_b",
    seeds := [{ seed_type := .AccountKey, value := "a", source := .Custom "a" }],
    used_in := ["create_b"], constraints := [] }

def c3_a : AccountInfo :=
  { name := "a", is_pda := true, is_signer := false, is_mut := true,
    initialized_by := some "create_a", seeds := [],
    used_in := ["create_a"], constraints := [] }

def c3_registry : AccountRegistry := ⟨[c3_b, c3_a]⟩

/-- C3 counterexample: PDA `b` carries an AccountKey seed whose value is `a`,
the name of PDA `a`, yet `detect_pdas` emits `b` BEFORE `a`: the dependency
value "a" is matched against seed-value lists (it finds `b`'s own list, which
contains "a") instead of against account names, so the referenced account is
never ordered first. -/
theorem pda_emitted_before_referenced_account :
    (detect_pdas c3_registry "pid").map (fun p => p.account_name) = ["b", "a"] ∧
    c3_b.seeds = [{ seed_type := .AccountKey, value := "a", source := .Custom "a" }] ∧
    c3_a.name = "a" := by
  refine ⟨by decide, rfl, rfl⟩

/-! ### Setup generator (`analyzer_onchain/src/setup_generator.rs`) -/

/-- `common/src/types.rs` `SetupType`. -/
inductive SetupType where
  | CreateKeypair
  | FundAccount
  | InitializePda
  | MintTokens
  | CreateAta
deriving Repr, DecidableEq

/-- `common/src/types.rs` `SetupRequirement`. -/
structure SetupRequirement where
  requirement_type : SetupType
  description : String
  dependencies : List String
deriving Repr, DecidableEq

instance : Inhabited SetupRequirement :=
  ⟨{ requirement_type := .CreateKeypair, description := "", dependencies := [] }⟩

/-- The unsorted requirement list built by
`SetupGenerator::generate_setup_requirements` (lines 11-57): one
`CreateKeypair` per non-PDA signer, then one `FundAccount` per such signer,
then one `InitializePda` per must-initialize PDA, keeping only the PDA
dependencies whose name occurs among the account dependencies. -/
def setupUnsorted (account_dependencies : List AccountDependency) :
    List SetupRequirement :=
  let signer_accounts := account_dependencies.filter
    (fun ad => ad.is_signer && !ad.is_pda)
  signer_accounts.map (fun s =>
    { requirement_type := .CreateKeypair,
      description := "Create keypair for " ++ s.account_name,
      dependencies := [] }) ++
  (signer_accounts.map (fun s =>
    { requirement_type := .FundAccount,
      description := "Fund " ++ s.account_name ++ " with SOL for transactions",
      dependencies := [s.account_name] }) ++
  (account_dependencies.filter (fun ad => ad.is_pda && ad.must_be_initialized)).map
    (fun pda =>
      { requirement_type := .InitializePda,
        description := "Initialize " ++ pda.account_name ++ " PDA",
        dependencies := pda.depends_on.filter
          (fun dep => account_dependencies.any
            (fun ad => ad.account_name == dep)) }))

/-- Dependency resolution of `SetupGenerator::visit_requirement` (lines
106-108): a dependency name resolves to the first index, in the
`HashMap::keys` iteration order `keyOrder`, whose requirement description
contains the name as a substring; unresolved names are skipped. -/
def setupNbr (reqs : List SetupRequirement) (keyOrder : List Nat) (i : Nat) :
    List Nat :=
  (reqs.getD i default).dependencies.filterMap
    (fun dep => keyOrder.find?
      (fun j => strContains (reqs.getD j default).description dep))

/-- `SetupGenerator::sort_setup_requirements` (lines 65-91): postorder DFS
over the indices in ascending outer order, then reorder the requirements by
the sorted index list.  The source returns `Ok` on every input, so the
embedding is total. -/
def sort_setup_requirements (reqs : List SetupRequirement)
    (keyOrder : List Nat) : List SetupRequirement :=
  (dfsOuter (setupNbr reqs keyOrder) reqs.length).map
    (fun idx => reqs.getD idx default)

/-- `SetupGenerator::generate_setup_requirements` (lines 7-63). -/
def generate_setup_requirements (account_dependencies : List AccountDependency)
    (keyOrder : List Nat) : List SetupRequirement :=
  sort_setup_requirements (setupUnsorted account_dependencies) keyOrder

theorem setupNbr_lt (reqs : List SetupRequirement) (keyOrder : List Nat)
    (hko : ∀ j ∈ keyOrder, j < reqs.length) :
    ∀ i j, j ∈ setupNbr reqs keyOrder i → j < reqs.length := by
  intro i j hj
  rw [setupNbr] at hj
  obtain ⟨dep, _, hfind⟩ := List.mem_filterMap.mp hj
  exact hko j (List.mem_of_find?_eq_some hfind)

/-- C6: every requirement list produced by `generate_setup_requirements` is a
permutation of the three blocks built from the account dependencies, and for
every non-PDA signer the `CreateKeypair` requirement for that account appears
strictly before the `FundAccount` requirement for the same account and before
every `InitializePda` requirement whose dependency list contains that
account's name — for every `HashMap::keys` iteration order (whose members are
the requirement indices). -/
theorem create_keypair_before_fund_and_init
    (ads : List AccountDependency) (keyOrder : List Nat)
    (hko : ∀ j ∈ keyOrder, j < (setupUnsorted ads).length) :
    (generate_setup_requirements ads keyOrder).Perm (setupUnsorted ads) ∧
    ∀ s ∈ ads, s.is_signer = true → s.is_pda = false →
    ∀ q, q < (generate_setup_requirements ads keyOrder).length →
      ((((generate_setup_requirements ads keyOrder).getD q
            default).requirement_type = SetupType.FundAccount ∧
          ((generate_setup_requirements ads keyOrder).getD q
            default).description =
            "Fund " ++ s.account_name ++ " with SOL for transactions") ∨
        (((generate_setup_requirements ads keyOrder).getD q
            default).requirement_type = SetupType.InitializePda ∧
          s.account_name ∈ ((generate_setup_requirements ads keyOrder).getD q
            default).dependencies)) →
      ∃ p, p < q ∧ (generate_setup_requirements ads keyOrder).getD p default =
        { requirement_type := SetupType.CreateKeypair,
          description := "Create keypair for " ++ s.account_name,
          dependencies := [] } := by
  set signers := ads.filter (fun ad => ad.is_signer && !ad.is_pda) with hsig
  set reqs := setupUnsorted ads with hreqs
  set g : Nat → SetupRequirement := fun idx => reqs.getD idx default with hg
  have h1 : reqs = signers.map (fun s =>
      { requirement_type := .CreateKeypair,
        description := "Create keypair for " ++ s.account_name,
        dependencies := [] }) ++
      (signers.map (fun s =>
        { requirement_type := .FundAccount,
          description := "Fund " ++ s.account_name ++
            " with SOL for transactions",
          dependencies := [s.account_name] }) ++
      (ads.filter (fun ad => ad.is_pda && ad.must_be_initialized)).map
        (fun pda =>
          { requirement_type := .InitializePda,
            description := "Initialize " ++ pda.account_name ++ " PDA",
            dependencies := pda.depends_on.filter
              (fun dep => ads.any (fun ad => ad.account_name == dep)) })) :=
    rfl
  have hk : signers.length ≤ reqs.length := by
    rw [h1, List.length_append, List.length_map]
    omega
  have hckD : ∀ i (hi : i < signers.length), reqs.getD i default =
      { requirement_type := SetupType.CreateKeypair,
        description := "Create keypair for " ++
          (signers.get ⟨i, hi⟩).account_name,
        dependencies := [] } := by
    intro i hi
    rw [h1, List.getD_append _ _ _ _ (by simpa using hi),
      List.getD_eq_getElem _ _ (by simpa using hi), List.getElem_map]
    rw [List.get_eq_getElem]
  have hnil : ∀ i, i < signers.length → setupNbr reqs keyOrder i = [] := by
    intro i hi
    rw [setupNbr, hckD i hi]
    rfl
  have hnbr := setupNbr_lt reqs keyOrder hko
  obtain ⟨rest, hout, hnd, hrest⟩ :=
    dfsOuter_prefix (setupNbr reqs keyOrder) reqs.length signers.length
      hnbr hk hnil
  have hgen : generate_setup_requirements ads keyOrder =
      (List.range signers.length).map g ++ rest.map g := by
    rw [generate_setup_requirements, sort_setup_requirements, ← hreqs, hout,
      List.map_append]
  have houtD : ∀ i (hi : i < signers.length),
      (generate_setup_requirements ads keyOrder).getD i default =
        { requirement_type := SetupType.CreateKeypair,
          description := "Create keypair for " ++
            (signers.get ⟨i, hi⟩).account_name,
          dependencies := [] } := by
    intro i hi
    rw [hgen, List.getD_append _ _ _ _ (by simpa using hi),
      List.getD_eq_getElem _ _ (by simpa using hi), List.getElem_map]
    simp only [List.getElem_range]
    exact hckD i hi
  constructor
  · have hperm := (dfsOuter_perm (setupNbr reqs keyOrder) reqs.length hnbr).map g
    rw [map_getD_range default reqs] at hperm
    rw [generate_setup_requirements, sort_setup_requirements, ← hreqs]
    exact hperm
  · intro s hs hsg hpd q _ hcase
    have hmem : s ∈ signers := by
      rw [hsig]
      exact List.mem_filter.mpr ⟨hs, by simp [hsg, hpd]⟩
    obtain ⟨p, hp, hpe⟩ := List.mem_iff_getElem.mp hmem
    have hpD := houtD p hp
    rw [List.get_eq_getElem, hpe] at hpD
    have hqk : signers.length ≤ q := by
      by_contra hqk
      push_neg at hqk
      have hqD := houtD q hqk
      rcases hcase with ⟨ht, _⟩ | ⟨ht, _⟩ <;> rw [hqD] at ht <;> simp at ht
    exact ⟨p, by omega, hpD⟩

def c6_payer : AccountDependency :=
  { account_name := "payer", depends_on := [], is_pda := false,
    is_signer := true, is_mut := true, must_be_initialized := false,
    initialization_order := 0 }

def c6_ads : List AccountDependency :=
  [c6_payer,
   { account_name := "vault", depends_on := ["payer"], is_pda := true,
     is_signer := false, is_mut := true, must_be_initialized := true,
     initialization_order := 1 }]

/-- C6 witness: on one signer plus one dependent PDA, with the key iteration
order `[2, 1, 0]`, the hypotheses hold, the output is a permutation of the
three built requirements, and the `CreateKeypair` for `payer` precedes the
requirement at index 2 (the `InitializePda` depending on `payer`). -/
theorem create_keypair_before_fund_and_init_witness :
    (∀ j ∈ ([2, 1, 0] : List Nat), j < (setupUnsorted c6_ads).length) ∧
    (generate_setup_requirements c6_ads [2, 1, 0]).Perm (setupUnsorted c6_ads) ∧
    ∃ p, p < 2 ∧
      (generate_setup_requirements c6_ads [2, 1, 0]).getD p default =
        { requirement_type := SetupType.CreateKeypair,
          description := "Create keypair for " ++ "payer",
          dependencies := [] } := by
  have hko : ∀ j ∈ ([2, 1, 0] : List Nat), j < (setupUnsorted c6_ads).length := by
    decide
  have h := create_keypair_before_fund_and_init c6_ads [2, 1, 0] hko
  refine ⟨hko, h.1, ?_⟩
  refine h.2 c6_payer (by decide) rfl rfl 2 (by decide) ?_
  right
  constructor
  · decide
  · decide

/-! ### Test case generator
(`solana-program/solify/programs/solify/src/analyzer/test_case_generator.rs`),
with the argument/test-case types from
`programs/solify/src/types/dependencies.rs`. -/

/-- `ArgumentType` (`types/dependencies.rs`). -/
inductive ArgumentType where
  | U8
  | U16
  | U32
  | U64
  | U128
  | I8
  | I16
  | I32
  | I64
  | I128
  | Bool
  | String (max_length : Option Nat)
  | Pubkey
  | VecType (inner_type_name : String) (max_length : Option Nat)
  | OptionType (inner_type_name : String)
deriving Repr, DecidableEq

/-- `ArgumentConstraint` (`types/dependencies.rs`); `value` fields are `i64`
(so `Min \x7b value: 0 \x7d - 1` is `-1`, not an underflow). -/
inductive ArgumentConstraint where
  | Min (value : Int)
  | Max (value : Int)
  | Range (min max : Int)
  | NonZero
  | MaxLength (value : Nat)
  | MinLength (value : Nat)
deriving Repr, DecidableEq

/-- `ArgumentInfo` (`types/dependencies.rs`). -/
structure ArgumentInfo where
  name : String
  arg_type : ArgumentType
  constraints : List ArgumentConstraint
  is_optional : Bool
deriving Repr, DecidableEq

/-- `TestCaseType` (`types/dependencies.rs`). -/
inductive TestCaseType where
  | Positive
  | NegativeBoundary
  | NegativeType
  | NegativeConstraint
  | NegativeNull
  | NegativeOverflow
deriving Repr, DecidableEq

/-- `TestValueType` (`types/dependencies.rs`). -/
inductive TestValueType where
  | Valid (description : String)
  | Invalid (description : String) (reason : String)
deriving Repr, DecidableEq

/-- `TestArgumentValue` (`types/dependencies.rs`). -/
structure TestArgumentValue where
  argument_name : String
  value_type : TestValueType
deriving Repr, DecidableEq

/-- `ExpectedOutcome` (`types/dependencies.rs`). -/
inductive ExpectedOutcome where
  | Success (state_changes : List String)
  | Failure (error_code : Option String) (error_message : String)
deriving Repr, DecidableEq

/-- `TestCase` (`types/dependencies.rs`). -/
structure TestCase where
  test_type : TestCaseType
  description : String
  argument_values : List TestArgumentValue
  expected_outcome : ExpectedOutcome
deriving Repr, DecidableEq

/-- `InstructionTestCases` (`types/dependencies.rs`). -/
structure InstructionTestCases where
  instruction_name : String
  arguments : List ArgumentInfo
  positive_cases : List TestCase
  negative_cases : List TestCase
deriving Repr, DecidableEq

/-- `TestCaseGenerator::parse_argument_type` (lines 75-92); every arm of the
source returns `Ok`, so the embedding is total. -/
def parse_argument_type (field_type : IdlField) : ArgumentType :=
  match field_type.field_type with
  | "u8" => .U8
  | "u16" => .U16
  | "u32" => .U32
  | "u64" => .U64
  | "u128" => .U128
  | "i8" => .I8
  | "i16" => .I16
  | "i32" => .I32
  | "i64" => .I64
  | "i128" => .I128
  | "bool" => .Bool
  | "string" => .String none
  | "publicKey" => .Pubkey
  | _ => .VecType "u8" none

/-- `TestCaseGenerator::extract_constraints_from_docs` (lines 94-112), total
for the same reason: unsigned integer types get `Min \x7b 0 \x7d` then
`NonZero`, strings get `MinLength 1` then `MaxLength 100`. -/
def extract_constraints_from_docs (field_type : IdlField) :
    List ArgumentConstraint :=
  match field_type.field_type with
  | "u8" | "u16" | "u32" | "u64" | "u128" => [.Min 0, .NonZero]
  | "string" => [.MinLength 1, .MaxLength 100]
  | _ => []

/-- `TestCaseGenerator::parse_arguments` (lines 57-73). -/
def parse_arguments (args : List IdlField) : List ArgumentInfo :=
  args.map (fun arg =>
    { name := arg.name,
      arg_type := parse_argument_type arg,
      constraints := extract_constraints_from_docs arg,
      is_optional := false })

/-- `TestCaseGenerator::create_basic_positive_case` (lines 135-180). -/
def create_basic_positive_case (instruction_name : String)
    (arguments : List ArgumentInfo) : TestCase :=
  { test_type := .Positive,
    description := instruction_name ++ " - valid inputs",
    argument_values := arguments.map (fun arg =>
      { argument_name := arg.name,
        value_type := .Valid (match arg.arg_type with
          | .U8 | .U16 | .U32 | .U64 | .U128 => "1000"
          | .I8 | .I16 | .I32 | .I64 | .I128 => "500"
          | .Bool => "true"
          | .String _ => "\"test_value\""
          | .Pubkey => "authority.publicKey"
          | _ => "/* valid value */") }),
    expected_outcome := .Success
      ["Account state updated successfully",
       "Instruction executed without errors"] }

/-- `TestCaseGenerator::generate_boundary_cases` (lines 182-226). -/
def generate_boundary_cases (argument : ArgumentInfo) :
    Option (List TestCase) :=
  let boundary_cases := argument.constraints.filterMap (fun c =>
    match c with
    | .Min value => some
        { test_type := .Positive,
          description := argument.name ++ " - minimum value",
          argument_values := [⟨argument.name, .Valid (toString value)⟩],
          expected_outcome := .Success ["Minimum value accepted"] }
    | .Max value => some
        { test_type := .Positive,
          description := argument.name ++ " - maximum value",
          argument_values := [⟨argument.name, .Valid (toString value)⟩],
          expected_outcome := .Success ["Maximum value accepted"] }
    | _ => none)
  if boundary_cases.isEmpty then none else some boundary_cases

/-- `TestCaseGenerator::generate_positive_cases` (lines 114-133). -/
def generate_positive_cases (instruction_name : String)
    (arguments : List ArgumentInfo) : List TestCase :=
  create_basic_positive_case instruction_name arguments ::
    (arguments.map (fun arg =>
      match generate_boundary_cases arg with
      | some boundary_cases => boundary_cases
      | none => [])).flatten

/-- `TestCaseGenerator::create_constraint_violation_case` (lines 290-349). -/
def create_constraint_violation_case (instruction_name : String)
    (argument : ArgumentInfo) (constraint : ArgumentConstraint) :
    Option TestCase :=
  match constraint with
  | .Min value => some
      { test_type := .NegativeBoundary,
        description := instruction_name ++ " - " ++ argument.name ++
          " below minimum",
        argument_values := [⟨argument.name,
          .Invalid (toString (value - 1))
            ("Below minimum value of " ++ toString value)⟩],
        expected_outcome := .Failure (some "ConstraintViolation")
          (argument.name ++ " must be at least " ++ toString value) }
  | .Max value => some
      { test_type := .NegativeBoundary,
        description := instruction_name ++ " - " ++ argument.name ++
          " above maximum",
        argument_values := [⟨argument.name,
          .Invalid (toString (value + 1))
            ("Above maximum value of " ++ toString value)⟩],
        expected_outcome := .Failure (some "ConstraintViolation")
          (argument.name ++ " must be at most " ++ toString value) }
  | .NonZero => some
      { test_type := .NegativeConstraint,
        description := instruction_name ++ " - " ++ argument.name ++ " is zero",
        argument_values := [⟨argument.name, .Invalid "0" "Must be non-zero"⟩],
        expected_outcome := .Failure (some "ZeroAmount")
          (argument.name ++ " cannot be zero") }
  | _ => none

/-- `TestCaseGenerator::generate_numeric_negative_cases` (lines 351-393). -/
def generate_numeric_negative_cases (instruction_name : String)
    (argument : ArgumentInfo) : List TestCase :=
  [{ test_type := .NegativeOverflow,
     description := instruction_name ++ " - " ++ argument.name ++ " overflow",
     argument_values := [⟨argument.name,
       .Invalid "u64::MAX" "Potential arithmetic overflow"⟩],
     expected_outcome := .Failure (some "Overflow") "Arithmetic overflow" },
   { test_type := .NegativeType,
     description := instruction_name ++ " - " ++ argument.name ++
       " negative value",
     argument_values := [⟨argument.name,
       .Invalid "-1" "Unsigned type cannot be negative"⟩],
     expected_outcome := .Failure (some "InvalidType")
       "Unsigned integer cannot be negative" }]

/-- `TestCaseGenerator::generate_string_negative_cases` (lines 395-437). -/
def generate_string_negative_cases (instruction_name : String)
    (argument : ArgumentInfo) : List TestCase :=
  [{ test_type := .NegativeNull,
     description := instruction_name ++ " - " ++ argument.name ++
       " empty string",
     argument_values := [⟨argument.name,
       .Invalid "\"\"" "String cannot be empty"⟩],
     expected_outcome := .Failure (some "EmptyString")
       "String cannot be empty" },
   { test_type := .NegativeBoundary,
     description := instruction_name ++ " - " ++ argument.name ++ " too long",
     argument_values := [⟨argument.name,
       .Invalid "\"a\".repeat(1000)" "Exceeds maximum length"⟩],
     expected_outcome := .Failure (some "StringTooLong")
       "String exceeds maximum length" }]

/-- `TestCaseGenerator::generate_pubkey_negative_cases` (lines 439-464). -/
def generate_pubkey_negative_cases (instruction_name : String)
    (argument : ArgumentInfo) : List TestCase :=
  [{ test_type := .NegativeType,
     description := instruction_name ++ " - " ++ argument.name ++
       " invalid pubkey",
     argument_values := [⟨argument.name,
       .Invalid "Keypair.generate().publicKey" "Account not initialized"⟩],
     expected_outcome := .Failure (some "AccountNotInitialized")
       "Account has not been initialized" }]

/-- `TestCaseGenerator::generate_argument_negative_cases` (lines 247-288). -/
def generate_argument_negative_cases (instruction_name : String)
    (argument : ArgumentInfo) : List TestCase :=
  argument.constraints.filterMap
    (create_constraint_violation_case instruction_name argument) ++
  (match argument.arg_type with
   | .U8 | .U16 | .U32 | .U64 | .U128 =>
       generate_numeric_negative_cases instruction_name argument
   | .String _ => generate_string_negative_cases instruction_name argument
   | .Pubkey => generate_pubkey_negative_cases instruction_name argument
   | _ => [])

/-- `TestCaseGenerator::create_combined_negative_case` (lines 466-491). -/
def create_combined_negative_case (instruction_name : String)
    (arguments : List ArgumentInfo) : TestCase :=
  { test_type := .NegativeConstraint,
    description := instruction_name ++ " - all arguments invalid",
    argument_values := arguments.map (fun arg =>
      ⟨arg.name, .Invalid "invalid" "Multiple validation failures"⟩),
    expected_outcome := .Failure none "Multiple validation errors" }

/-- `TestCaseGenerator::generate_negative_cases` (lines 228-245). -/
def generate_negative_cases (instruction_name : String)
    (arguments : List ArgumentInfo) : List TestCase :=
  (arguments.map (generate_argument_negative_cases instruction_name)).flatten ++
    (if arguments.length > 1
      then [create_combined_negative_case instruction_name arguments]
      else [])

/-- `TestCaseGenerator::generate_instruction_test_cases` (lines 41-55); the
called stages are all infallible, so the embedding is total. -/
def generate_instruction_test_cases (instruction : IdlInstruction) :
    InstructionTestCases :=
  let arguments := parse_arguments instruction.args
  { instruction_name := instruction.name,
    arguments := arguments,
    positive_cases := generate_positive_cases instruction.name arguments,
    negative_cases := generate_negative_cases instruction.name arguments }

/-- `TestCaseGenerator::generate_test_cases` (lines 21-39); an execution-order
entry naming no instruction yields `InvalidInstructionOrder` (payload-free in
the on-chain error enum; the embedding's common error type records the
name). -/
def generate_test_cases (idl_data : IdlData) :
    List String → Except SolifyError (List InstructionTestCases)
  | [] => .ok []
  | instruction_name :: rest =>
    match idl_data.instructions.find? (fun i => i.name == instruction_name) with
    | none => .error (.InvalidInstructionOrder instruction_name)
    | some instruction =>
        match generate_test_cases idl_data rest with
        | .ok more => .ok (generate_instruction_test_cases instruction :: more)
        | .error e => .error e

/-- C7: an instruction argument declared `u64` is annotated with constraints
`[Min 0, NonZero]`, and the instruction's generated `negative_cases` contain
a case whose single argument value is the invalid `"0"` expecting
`Failure \x7b error_code: Some("ZeroAmount") \x7d`, and an overflow case
whose single argument value is the sentinel `"u64::MAX"`. -/
theorem u64_negative_cases_include_zero_and_overflow
    (instruction : IdlInstruction) (arg : IdlField)
    (harg : arg ∈ instruction.args) (hty : arg.field_type = "u64") :
    extract_constraints_from_docs arg =
      [ArgumentConstraint.Min 0, ArgumentConstraint.NonZero] ∧
    ∃ zc oc : TestCase,
      zc ∈ (generate_instruction_test_cases instruction).negative_cases ∧
      zc.argument_values = [⟨arg.name, .Invalid "0" "Must be non-zero"⟩] ∧
      zc.expected_outcome =
        .Failure (some "ZeroAmount") (arg.name ++ " cannot be zero") ∧
      oc ∈ (generate_instruction_test_cases instruction).negative_cases ∧
      oc.test_type = .NegativeOverflow ∧
      oc.argument_values =
        [⟨arg.name, .Invalid "u64::MAX" "Potential arithmetic overflow"⟩] := by
  have hpt : parse_argument_type arg = ArgumentType.U64 := by
    rw [parse_argument_type, hty]
    decide
  have hec : extract_constraints_from_docs arg =
      [ArgumentConstraint.Min 0, ArgumentConstraint.NonZero] := by
    rw [extract_constraints_from_docs, hty]
    decide
  have hai : (⟨arg.name, ArgumentType.U64,
      [ArgumentConstraint.Min 0, ArgumentConstraint.NonZero], false⟩ :
        ArgumentInfo) ∈ parse_arguments instruction.args := by
    rw [parse_arguments]
    refine List.mem_map.mpr ⟨arg, harg, ?_⟩
    rw [hpt, hec]
  have hnc : (generate_instruction_test_cases instruction).negative_cases =
      generate_negative_cases instruction.name
        (parse_arguments instruction.args) := rfl
  have hblock : ∀ tc, tc ∈ generate_argument_negative_cases instruction.name
        ⟨arg.name, ArgumentType.U64,
          [ArgumentConstraint.Min 0, ArgumentConstraint.NonZero], false⟩ →
      tc ∈ (generate_instruction_test_cases instruction).negative_cases := by
    intro tc htc
    rw [hnc, generate_negative_cases]
    refine List.mem_append_left _ (List.mem_flatten.mpr ⟨_, ?_, htc⟩)
    exact List.mem_map.mpr ⟨_, hai, rfl⟩
  refine ⟨hec,
    ⟨.NegativeConstraint,
      instruction.name ++ " - " ++ arg.name ++ " is zero",
      [⟨arg.name, .Invalid "0" "Must be non-zero"⟩],
      .Failure (some "ZeroAmount") (arg.name ++ " cannot be zero")⟩,
    ⟨.NegativeOverflow,
      instruction.name ++ " - " ++ arg.name ++ " overflow",
      [⟨arg.name, .Invalid "u64::MAX" "Potential arithmetic overflow"⟩],
      .Failure (some "Overflow") "Arithmetic overflow"⟩,
    ?_, rfl, rfl, ?_, rfl, rfl⟩
  · refine hblock _ ?_
    rw [generate_argument_negative_cases]
    refine List.mem_append_left _ ?_
    refine List.mem_filterMap.mpr ⟨ArgumentConstraint.NonZero, ?_, rfl⟩
    simp
  · refine hblock _ ?_
    rw [generate_argument_negative_cases]
    refine List.mem_append_right _ ?_
    simp [generate_numeric_negative_cases]

def c7_instr : IdlInstruction :=
  { name := "transfer", accounts := [],
    args := [{ name := "amount", field_type := "u64" }], docs := [] }

/-- C7 witness: the `transfer` instruction with a `u64` argument `amount`
satisfies the hypotheses, and its generated negative cases contain the
`"0"`/`ZeroAmount` case and the `"u64::MAX"` overflow case. -/
theorem u64_negative_cases_include_zero_and_overflow_witness :
    (({ name := "amount", field_type := "u64" } : IdlField) ∈ c7_instr.args) ∧
    ∃ zc oc : TestCase,
      zc ∈ (generate_instruction_test_cases c7_instr).negative_cases ∧
      zc.argument_values = [⟨"amount", .Invalid "0" "Must be non-zero"⟩] ∧
      zc.expected_outcome =
        .Failure (some "ZeroAmount") ("amount" ++ " cannot be zero") ∧
      oc ∈ (generate_instruction_test_cases c7_instr).negative_cases ∧
      oc.test_type = .NegativeOverflow ∧
      oc.argument_values =
        [⟨"amount", .Invalid "u64::MAX" "Potential arithmetic overflow"⟩] := by
  refine ⟨by decide, ?_⟩
  exact (u64_negative_cases_include_zero_and_overflow c7_instr
    ⟨"amount", "u64"⟩ (by decide) rfl).2

/-! ### Dependency graph construction
(`programs/solify/src/analyzer/dependency_analyzer.rs` lines 314-448) -/

instance : Inhabited InstructionNode := ⟨⟨"", [], []⟩⟩

/-- `DependencyAnalyzerImpl::create_instruction_node` (lines 374-397): each
account item whose registry record is initialized by this instruction lands in
`initializes`, every other registered item in `requires`. -/
def create_instruction_node (instruction : IdlInstruction)
    (registry : AccountRegistry) : InstructionNode :=
  let st := instruction.accounts.foldl
    (fun (st : List String × List String) item =>
      match get_account registry item.name with
      | some account =>
          if account.initialized_by == some instruction.name
          then (st.1 ++ [account.name], st.2)
          else (st.1, st.2 ++ [account.name])
      | none => st) ([], [])
  { name := instruction.name, initializes := st.1, requires := st.2 }

/-- The node-building loop of `build_dependency_graph` (lines 326-334):
an execution-order entry naming no instruction fails with
`InvalidInstructionOrder` (payload-free on-chain; the embedding's common
error type records the name). -/
def buildNodes (idl_data : IdlData) (registry : AccountRegistry) :
    List String → Except SolifyError (List InstructionNode)
  | [] => .ok []
  | instruction_name :: rest =>
      match idl_data.instructions.find? (fun i => i.name == instruction_name) with
      | none => .error (.InvalidInstructionOrder instruction_name)
      | some instruction =>
          match buildNodes idl_data registry rest with
          | .ok more => .ok (create_instruction_node instruction registry :: more)
          | .error e => .error e

/-- The `Initialization` edges of one node (lines 338-347): `nodes[..i]`
position search is rendered as `find?` over the prior nodes. -/
def initEdgesOf (prior : List InstructionNode) (node : InstructionNode) :
    List DependencyEdge :=
  node.requires.filterMap (fun account_name =>
    (prior.find? (fun n => n.initializes.contains account_name)).map
      (fun dep =>
        { «from» := dep.name, «to» := node.name,
          dependency_type := .Initialization, account := account_name }))

/-- The `SeedDependency` edges of one node (lines 350-365). -/
def seedEdgesOf (registry : AccountRegistry) (prior : List InstructionNode)
    (node : InstructionNode) : List DependencyEdge :=
  (node.initializes.map (fun account_name =>
    match get_account registry account_name with
    | some account =>
        account.seeds.filterMap (fun seed =>
          match seed.source with
          | .UserAccount | .Vault =>
              (prior.find? (fun n => n.initializes.contains seed.value)).map
                (fun dep =>
                  { «from» := dep.name, «to» := node.name,
                    dependency_type := .SeedDependency,
                    account := account_name })
          | _ => none)
    | none => [])).flatten

/-- The edge loop of `has_cycle` (lines 429-441) with early exit, taking the
recursive visit as a parameter so the recursion is structural in the fuel. -/
def cycleEdgesGo (visit : String → List String × List String →
      (List String × List String) × Bool) (node_name : String) :
    List DependencyEdge → List String × List String →
    (List String × List String) × Bool
  | [], st => (st, false)
  | e :: rest, st =>
      if e.«from» == node_name then
        if st.2.contains e.«to» then (st, true)
        else if st.1.contains e.«to» then cycleEdgesGo visit node_name rest st
        else
          let r := visit e.«to» st
          if r.2 then r else cycleEdgesGo visit node_name rest r.1
      else cycleEdgesGo visit node_name rest st

/-- `DependencyAnalyzerImpl::has_cycle` (lines 419-448); the state is
`(visited, recursion_stack)`.  Fuel exhaustion, unreachable from
`detect_circular_dependencies` (each nested visit marks a new name visited),
conservatively reports a cycle. -/
def has_cycle (graph : DependencyGraph) :
    Nat → String → List String × List String →
    (List String × List String) × Bool
  | 0, _, st => (st, true)
  | fuel + 1, node_name, st =>
      let st1 := (node_name :: st.1, node_name :: st.2)
      let r := cycleEdgesGo (has_cycle graph fuel) node_name graph.edges st1
      if r.2 then r
      else ((r.1.1, r.1.2.filter (fun x => !(x == node_name))), false)

/-- `DependencyAnalyzerImpl::detect_circular_dependencies` (lines 399-417);
the early `return Err` is modelled by a sticky found-flag. -/
def detect_circular_dependencies (graph : DependencyGraph) :
    Except SolifyError Unit :=
  let res := graph.nodes.foldl (fun st node =>
    if st.2 then st
    else if st.1.1.contains node.name then st
    else has_cycle graph (graph.edges.length + 2) node.name st.1)
    ((([] : List String), ([] : List String)), false)
  if res.2 then .error .CircularDependency else .ok ()

/-- `DependencyAnalyzerImpl::build_dependency_graph` (lines 314-372). -/
def build_dependency_graph (idl_data : IdlData)
    (execution_order : List String) (registry : AccountRegistry) :
    Except SolifyError DependencyGraph :=
  match buildNodes idl_data registry execution_order with
  | .error e => .error e
  | .ok nodes =>
      let edges := ((List.range nodes.length).map (fun i =>
        initEdgesOf (nodes.take i) (nodes.getD i default) ++
          seedEdgesOf registry (nodes.take i) (nodes.getD i default))).flatten
      match detect_circular_dependencies { nodes := nodes, edges := edges } with
      | .error e => .error e
      | .ok _ => .ok { nodes := nodes, edges := edges }

/-! ### Account flow validation (`analyzer/src/account_order.rs` lines
126-172) -/

/-- `HashMap::insert` on an association list: replace the existing binding or
append a new one. -/
def afInsert (g : List (String × List String)) (k : String)
    (v : List String) : List (String × List String) :=
  if g.any (fun p => p.1 == k) then
    g.map (fun p => if p.1 == k then (k, v) else p)
  else g ++ [(k, v)]

/-- The name-to-dependencies map of `validate_account_flow` (lines 128-132). -/
def afGraph (dependencies : List AccountDependency) :
    List (String × List String) :=
  dependencies.foldl (fun g dep => afInsert g dep.account_name dep.depends_on) []

def afLookup (g : List (String × List String)) (k : String) :
    Option (List String) :=
  (g.find? (fun p => p.1 == k)).map (fun p => p.2)

/-- The dependency loop of `has_circular_dependency` (lines 157-167) with
early exit, taking the recursive visit as a parameter. -/
def circDepsGo (visit : String → List String × List String →
      (List String × List String) × Bool) :
    List String → List String × List String →
    (List String × List String) × Bool
  | [], st => (st, false)
  | dep :: rest, st =>
      if st.1.contains dep then
        if st.2.contains dep then (st, true)
        else circDepsGo visit rest st
      else
        let r := visit dep st
        if r.2 then r else circDepsGo visit rest r.1

/-- `AccountOrder::has_circular_dependency` (lines 148-172); the state is
`(visited, recursion_stack)`; fuel exhaustion (unreachable from
`validate_account_flow`) conservatively reports a cycle. -/
def has_circular_dependency (g : List (String × List String)) :
    Nat → String → List String × List String →
    (List String × List String) × Bool
  | 0, _, st => (st, true)
  | fuel + 1, account, st =>
      let st1 := (account :: st.1, account :: st.2)
      let deps := (afLookup g account).getD []
      let r := circDepsGo (has_circular_dependency g fuel) deps st1
      if r.2 then r
      else ((r.1.1, r.1.2.filter (fun x => !(x == account))), false)

/-- `AccountOrder::validate_account_flow` (lines 126-146); `keyOrder` is the
iteration order of `graph.keys()`. -/
def validate_account_flow (dependencies : List AccountDependency)
    (keyOrder : List String) : Except SolifyError Bool :=
  let g := afGraph dependencies
  let fuel := ((dependencies.map (fun d => d.depends_on.length)).foldl
    (fun a b => a + b) 0) + 2
  let res := keyOrder.foldl (fun st account =>
    if st.2 then st
    else if st.1.1.contains account then st
    else has_circular_dependency g fuel account st.1)
    ((([] : List String), ([] : List String)), false)
  if res.2 then .error .CircularDependency else .ok true

/-! ### Setup flow validation (`analyzer_onchain/src/setup_generator.rs`
lines 120-150) -/

/-- Rust `str::split(sep)` on the character list, for a non-empty literal
separator; the fuel strictly exceeds the text length. -/
def splitOnAux (sep : List Char) : Nat → List Char → List (List Char)
  | 0, cs => [cs]
  | fuel + 1, cs =>
      match firstInfixIdx cs sep with
      | none => [cs]
      | some i =>
          cs.take i :: splitOnAux sep fuel (cs.drop (i + sep.length))

/-- Rust `str::split(sep)` for a non-empty literal separator. -/
def splitOnStr (s sep : String) : List String :=
  (splitOnAux sep.data (s.data.length + 1) s.data).map (fun cs => ⟨cs⟩)

/-- Rust `str::split(' ').next()`: the text before the first space. -/
def firstSpaceToken (s : String) : String :=
  ⟨s.data.takeWhile (fun c => !(c == ' '))⟩

/-- `SetupGenerator::extract_target_from_description` (lines 139-150). -/
def extract_target_from_description (description : String) : Option String :=
  if strContains description "for " then
    match splitOnStr description "for " with
    | _ :: second :: _ => some second
    | _ => none
  else if strContains description "Initialize " then
    match splitOnStr description "Initialize " with
    | _ :: second :: _ => some (firstSpaceToken second)
    | _ => none
  else none

/-- The requirement loop of `validate_setup_flow` (lines 124-134), carrying
the satisfied-dependency set. -/
def validateSetupGo : List SetupRequirement → List String →
    Except SolifyError Bool
  | [], _ => .ok true
  | requirement :: rest, satisfied =>
      match requirement.dependencies.find?
          (fun d => !(satisfied.contains d)) with
      | some dependency =>
          .error (.DependencyAnalysisFailed
            ("Dependency not satisfied: " ++ dependency))
      | none =>
          match extract_target_from_description requirement.description with
          | some target => validateSetupGo rest (target :: satisfied)
          | none => validateSetupGo rest satisfied

/-- `SetupGenerator::validate_setup_flow` (lines 120-137). -/
def validate_setup_flow (requirements : List SetupRequirement) :
    Except SolifyError Bool :=
  validateSetupGo requirements []

/-! ### The two top-level orchestrators.  The repo holds exactly one
implementation of each pipeline stage (the module files re-declared by each
crate but absent from its `src/` are present in the sibling crates), so both
orchestrators are composed from the stage embeddings above. -/

/-- `common/src/types.rs` `TestMetadata`. -/
structure TestMetadata where
  instruction_order : List String
  account_dependencies : List AccountDependency
  pda_init_sequence : List PdaInit
  setup_requirements : List SetupRequirement
  test_cases : List InstructionTestCases
deriving Repr, DecidableEq

/-- `Pubkey::default()` (the all-zero key) as its base58 display, used by the
on-chain orchestrator for PDA detection. -/
def pubkeyDefault : String := "11111111111111111111111111111111"

/-- On-chain `DependencyAnalyzer::analyze_dependencies`
(`programs/solify/src/analyzer/mod.rs` lines 25-91): every fallible stage
result is propagated with `?` unchanged; `koDeg`, `koAF` and `koSetup` are
the hash-map iteration orders inside the corresponding stages. -/
def analyze_dependencies_onchain (idl_data : IdlData)
    (execution_order : List String) (koDeg koAF : List String)
    (koSetup : List Nat) : Except SolifyError TestMetadata :=
  let account_registry := build_account_registry idl_data
  match build_dependency_graph idl_data execution_order account_registry with
  | .error e => .error e
  | .ok dependency_graph =>
    match generate_account_dependencies dependency_graph account_registry
        koDeg with
    | .error e => .error e
    | .ok account_dependencies =>
      match validate_account_flow account_dependencies koAF with
      | .error e => .error e
      | .ok _ =>
        let pda_init_sequence := detect_pdas account_registry pubkeyDefault
        let setup_requirements := generate_setup_requirements
          account_dependencies koSetup
        match validate_setup_flow setup_requirements with
        | .error e => .error e
        | .ok _ =>
          match generate_test_cases idl_data execution_order with
          | .error e => .error e
          | .ok test_cases =>
              .ok { instruction_order := execution_order,
                    account_dependencies := account_dependencies,
                    pda_init_sequence := pda_init_sequence,
                    setup_requirements := setup_requirements,
                    test_cases := test_cases }

/-- The observable outcome of the off-chain orchestrator: a returned value, a
returned error, or a `panic!` raised by one of its `.unwrap()` calls. -/
inductive OffchainOutcome where
  | ok (meta : TestMetadata)
  | err (e : SolifyError)
  | panicked
deriving Repr, DecidableEq

/-- Off-chain `DependencyAnalyzer::analyze_dependencies`
(`analyzer_onchain/src/lib.rs` lines 21-112): the registry and graph stages
are wrapped by `map_err(|e| DependencyAnalysisFailed(e.to_string()))` (the
registry stage is infallible, so only the graph stage's wrap is reachable),
and every later fallible stage is `.unwrap()`ed, turning its error into a
panic. -/
def analyze_dependencies_offchain (idl_data : IdlData)
    (execution_order : List String) (program : String)
    (koDeg koAF : List String) (koSetup : List Nat) : OffchainOutcome :=
  let account_registry := build_account_registry idl_data
  match build_dependency_graph idl_data execution_order account_registry with
  | .error e => .err (.DependencyAnalysisFailed e.display)
  | .ok dependency_graph =>
    match generate_account_dependencies dependency_graph account_registry
        koDeg with
    | .error _ => .panicked
    | .ok account_dependencies =>
      match validate_account_flow account_dependencies koAF with
      | .error _ => .panicked
      | .ok _ =>
        let pda_init_sequence := detect_pdas account_registry program
        let setup_requirements := generate_setup_requirements
          account_dependencies koSetup
        match validate_setup_flow setup_requirements with
        | .error _ => .panicked
        | .ok _ =>
          match generate_test_cases idl_data execution_order with
          | .error _ => .panicked
          | .ok test_cases =>
              .ok { instruction_order := execution_order,
                    account_dependencies := account_dependencies,
                    pda_init_sequence := pda_init_sequence,
                    setup_requirements := setup_requirements,
                    test_cases := test_cases }

def c8_idl : IdlData := { name := "app", version := "0.1.0", instructions := [] }

/-- C8 counterexample: with an execution order naming a missing instruction,
the graph stage fails with `InvalidInstructionOrder`; the on-chain
orchestrator returns it unchanged, but the off-chain orchestrator returns it
re-wrapped as `DependencyAnalysisFailed "Invalid instruction order: foo"` —
not the stage's specific error kind. -/
theorem offchain_wraps_stage_error :
    build_dependency_graph c8_idl ["foo"] (build_account_registry c8_idl) =
      .error (.InvalidInstructionOrder "foo") ∧
    analyze_dependencies_onchain c8_idl ["foo"] [] [] [] =
      .error (.InvalidInstructionOrder "foo") ∧
    analyze_dependencies_offchain c8_idl ["foo"] "pid" [] [] [] =
      .err (.DependencyAnalysisFailed "Invalid instruction order: foo") := by
  refine ⟨rfl, rfl, rfl⟩

/-- C8 (amended): when the dependency-graph stage fails, the ON-chain
orchestrator surfaces that stage's error unchanged and yields no partial
`TestMetadata`, while the OFF-chain orchestrator re-wraps it as
`DependencyAnalysisFailed` of the error's display string (and, per
`analyze_dependencies_offchain`, turns any later-stage error into a panic
rather than a returned error). -/
theorem orchestrators_on_graph_stage_failure (idl_data : IdlData)
    (execution_order : List String) (program : String)
    (koDeg koAF : List String) (koSetup : List Nat) (e : SolifyError)
    (h : build_dependency_graph idl_data execution_order
      (build_account_registry idl_data) = .error e) :
    analyze_dependencies_onchain idl_data execution_order koDeg koAF koSetup =
      .error e ∧
    analyze_dependencies_offchain idl_data execution_order program koDeg koAF
      koSetup = .err (.DependencyAnalysisFailed e.display) := by
  constructor
  · simp only [analyze_dependencies_onchain]
    rw [h]
  · simp only [analyze_dependencies_offchain]
    rw [h]

/-- C8 witness: the missing-instruction input satisfies the graph-failure
hypothesis, and the two orchestrators produce the stated outcomes. -/
theorem orchestrators_on_graph_stage_failure_witness :
    analyze_dependencies_onchain c8_idl ["bar"] ["x"] ["y"] [0] =
      .error (.InvalidInstructionOrder "bar") ∧
    analyze_dependencies_offchain c8_idl ["bar"] "prog" ["x"] ["y"] [0] =
      .err (.DependencyAnalysisFailed
        (SolifyError.display (.InvalidInstructionOrder "bar"))) :=
  orchestrators_on_graph_stage_failure c8_idl ["bar"] "prog" ["x"] ["y"] [0]
    (.InvalidInstructionOrder "bar") rfl

end Solify
